import Mathlib

/-!
Verification of the diff-to-model source-code converter of this repository
(`utils/diff_model_converter.py`).

The converter is shallowly embedded: libcst nodes are opaque identifiers,
Python dicts are association lists with insertion-order semantics (an
existing key keeps its position, a new key is appended), Python sets of
strings are `Finset String`, Python's unbounded integers are `Int`, and
raised exceptions are `Except` errors.  All definitions are translated
from the Python source; line numbers in doc comments refer to
`utils/diff_model_converter.py`.
-/

namespace DiffConv

/-- Opaque identifier standing for a libcst CST node. -/
abbrev Node := Nat

/- ------------------------------------------------------------------ -/
/- Python dict and string primitives                                   -/
/- ------------------------------------------------------------------ -/

/-- Python dict assignment `d[k] = v` on an association list: an existing
key keeps its position and receives the new value, a new key is appended. -/
def pyInsert {α : Type} (m : List (String × α)) (k : String) (v : α) :
    List (String × α) :=
  if (m.lookup k).isSome then
    m.map (fun p => if p.1 = k then (k, v) else p)
  else m ++ [(k, v)]

/-- Decides whether `needle` occurs as a contiguous sublist of `hay`. -/
def listContainsSub (hay needle : List Char) : Bool :=
  match hay with
  | [] => needle.isEmpty
  | _ :: t => needle.isPrefixOf hay || listContainsSub t needle

/-- Python substring test `needle in hay` on strings. -/
def strContains (hay needle : String) : Bool :=
  listContainsSub hay.toList needle.toList

/-- Splitting a character list at every occurrence of `sep`, Python's
`str.split(sep)`: `splitOnChar '_' "a_b" = ["a", "b"]` and
`splitOnChar '_' "" = [""]`. -/
def splitOnChar (sep : Char) : List Char → List (List Char)
  | [] => [[]]
  | c :: t =>
    if c = sep then [] :: splitOnChar sep t
    else
      match splitOnChar sep t with
      | h :: r => (c :: h) :: r
      | [] => [[c]]

/- ------------------------------------------------------------------ -/
/- ClassFinder._update_class_dependency (lines 87-93)                  -/
/- ------------------------------------------------------------------ -/

/-- Models `ClassFinder.class_dependency_mapping` as a total function from a
class name to its recorded dependency set; `dict.get(name, set())` yields the
empty set for absent keys, so the empty-default total function is faithful. -/
abbrev DepMap := String → Finset String

/-- Models `ClassFinder._update_class_dependency(name, value)` (lines 87-93):
`dep = set(mapping.get(value, set())); dep |= set(mapping.get(name, {})) |
set({value}); mapping[name] = dep`. -/
def updateClassDependency (m : DepMap) (name value : String) : DepMap :=
  fun k => if k = name then m value ∪ m name ∪ {value} else m k

/-- Models `ClassFinder.visit_ClassDef` (lines 95-100) restricted to its
dependency bookkeeping: each declared base of the class is merged into the
class's dependency set, in declaration order. -/
def visitClassDefDeps (m : DepMap) (className : String) (bases : List String) :
    DepMap :=
  bases.foldl (fun acc b => updateClassDependency acc className b) m

/-- A traversal processing a sequence of class definitions (pairs of class
name and declared bases) in source order. -/
def processClasses (m : DepMap) (classes : List (String × List String)) :
    DepMap :=
  classes.foldl (fun acc c => visitClassDefDeps acc c.1 c.2) m

/- ------------------------------------------------------------------ -/
/- DiffConverterTransformer (lines 351-511)                            -/
/- ------------------------------------------------------------------ -/

/-- Python exception kinds raised by the converter. -/
inductive PyErr where
  | importError (msg : String)
  | valueError (msg : String)
deriving DecidableEq, Repr

/-- One value of the `DiffConverterTransformer.new_body` dict: the pair
`{"insert_idx": ..., "node": ...}`. -/
structure BodyEntry where
  insertIdx : Int
  node : Node
deriving DecidableEq, Repr

/-- Mutable state of a `DiffConverterTransformer` traversal: `new_body`,
`inserted_deps`, `global_scope_index` and the optional `config_body`
attribute (absent until the first class whose name contains "Config" is
seen; the code stores a singleton list `[updated_node]` in it). -/
structure ConvState where
  newBody : List (String × BodyEntry)
  insertedDeps : List String
  globalScopeIndex : Int
  configBody : Option (List Node)
deriving DecidableEq, Repr

/-- The part of a `ClassFinder` analysis that `leave_ClassDef` consumes:
`depsFor name` models `class_dependency_mapping.get(name, [])` taken in the
iteration order of lines 463-468 (sorted by descending
`class_start_line.get(dep, 1000)`), and `globalNodes` models
`global_nodes.get(dep, None)`.  The analysis of a visited base module is an
input here (the renaming and `ClassFinder` traversal that produce it are
modelled separately). -/
structure FinderData where
  depsFor : String → List String
  globalNodes : String → Option Node

/-- Models `re.search(r"_(\S*)", s)` (line 447): the regex matches at the
first `_` of `s` and its group captures the maximal run of non-whitespace
characters after it; no `_` means no match. -/
def underscoreGroup : List Char → Option (List Char)
  | [] => none
  | c :: t =>
    if c = '_' then some (t.takeWhile (fun d => !d.isWhitespace))
    else underscoreGroup t

/-- Models the model-name extraction of `leave_ClassDef` (lines 446-453):
the group of `re.search(r"_(\S*)", super_file_name)` applied to the whole
dotted import path, or a `ValueError` citing the path when there is no
match. -/
def getModelName (superFileName : String) : Except PyErr String :=
  match underscoreGroup superFileName.toList with
  | some g => .ok (String.mk g)
  | none =>
    .error (.valueError ("Tried parsing the name of the imported package from "
      ++ superFileName ++ ", could not extract the model name"))

/-- Comparison definition for claim C8, following the spec's words: the
regex `_(\S*)` applied to the trailing segment of the dotted path only. -/
def claimTrailingModelName (superFileName : String) : Option String :=
  match (splitOnChar '.' superFileName.toList).getLast? with
  | some seg => (underscoreGroup seg).map String.mk
  | none => none

/-- One iteration of the dependency loop of `leave_ClassDef`
(lines 470-479): a dependency with no node in `global_nodes` is skipped;
one absent from `new_body` is inserted at the decremented cursor; one
present but not in `inserted_deps` moves the cursor just below its
existing index; in every non-skipped case the dependency is appended to
`inserted_deps`. -/
def insertDep (globalNodes : String → Option Node)
    (acc : ConvState × Int) (dep : String) : ConvState × Int :=
  match globalNodes dep with
  | none => acc
  | some n =>
    match acc.1.newBody.lookup dep with
    | none =>
      ({ acc.1 with
          newBody := pyInsert acc.1.newBody dep ⟨acc.2 - 1, n⟩,
          insertedDeps := acc.1.insertedDeps ++ [dep] }, acc.2 - 1)
    | some e =>
      if dep ∈ acc.1.insertedDeps then
        ({ acc.1 with insertedDeps := acc.1.insertedDeps ++ [dep] }, acc.2)
      else
        ({ acc.1 with insertedDeps := acc.1.insertedDeps ++ [dep] },
          e.insertIdx - 1)

/-- The dependency loop of `leave_ClassDef` over the sorted dependency
list, starting from `start_insert_idx = self.global_scope_index`. -/
def insertDeps (globalNodes : String → Option Node) (deps : List String)
    (st : ConvState) (startIdx : Int) : ConvState × Int :=
  deps.foldl (insertDep globalNodes) (st, startIdx)

/-- The body of the `for super_class in bases` loop of `leave_ClassDef`
(lines 440-481) for one base class: the (dead) `ImportError` guard, the
model-name extraction, the dependency insertion for the class's dependency
list in the visited module, and the `replace_call_to_super` rewrite of the
class node (abstracted by the oracle `resolve`) when any dependency was
found. -/
def processSuper (importedMapping : List (String × String))
    (finder : String → FinderData) (resolve : String → Node → Node)
    (className : String) (acc : ConvState × Node) (superClass : String) :
    Except PyErr (ConvState × Node) :=
  match importedMapping.lookup superClass with
  | none =>
    .error (.importError (superClass
      ++ " was not imported using `from transformers.models.xxxxx.modeling_xxxx import "
      ++ superClass))
  | some superFileName =>
    match getModelName superFileName with
    | .error e => .error e
    | .ok _modelName =>
      let fd := finder superFileName
      let deps := fd.depsFor className
      let res := insertDeps fd.globalNodes deps acc.1 acc.1.globalScopeIndex
      let node' := if deps.length > 0 then resolve superFileName acc.2 else acc.2
      .ok (res.1, node')

/-- Folding `processSuper` over the filtered base list, propagating the
first raised exception. -/
def foldSupers (importedMapping : List (String × String))
    (finder : String → FinderData) (resolve : String → Node → Node)
    (className : String) : List String → ConvState × Node →
    Except PyErr (ConvState × Node)
  | [], acc => .ok acc
  | b :: rest, acc =>
    match processSuper importedMapping finder resolve className acc b with
    | .error e => .error e
    | .ok acc' => foldSupers importedMapping finder resolve className rest acc'

/-- Models `DiffConverterTransformer.leave_ClassDef` (lines 426-486):
the declared bases are filtered to those present in `imported_mapping`
(line 438), `global_scope_index` is incremented by 100, each surviving base
is processed by the dependency loop, and finally the class node is stored:
in `config_body` (replacing any previous value) when the class name
contains "Config", in `new_body` at index `global_scope_index` otherwise. -/
def leaveClassDef (importedMapping : List (String × String))
    (finder : String → FinderData) (resolve : String → Node → Node)
    (className : String) (rawBases : List String) (classNode : Node)
    (st : ConvState) : Except PyErr ConvState :=
  let bases := rawBases.filter (fun b => (importedMapping.lookup b).isSome)
  let st1 := { st with globalScopeIndex := st.globalScopeIndex + 100 }
  match foldSupers importedMapping finder resolve className bases (st1, classNode) with
  | .error e => .error e
  | .ok (st2, node') =>
    .ok (if strContains className "Config" then
          { st2 with configBody := some [node'] }
        else
          { st2 with
            newBody := pyInsert st2.newBody className
              ⟨st2.globalScopeIndex, node'⟩ })

/-- Ordering of `new_body` entries used by `leave_Module` (line 508):
ascending `insert_idx`. -/
def bodyLe (a b : String × BodyEntry) : Prop :=
  a.2.insertIdx ≤ b.2.insertIdx

instance : DecidableRel bodyLe := fun _ _ => Int.decLe _ _

/-- Models `sorted(self.new_body.items(), key=lambda x: x[1]["insert_idx"])`
of `leave_Module` (line 508). -/
def sortBody (l : List (String × BodyEntry)) : List (String × BodyEntry) :=
  List.insertionSort bodyLe l

/-- Models the body assembly of `leave_Module` (lines 498-511): the
deduplicated import block followed by the `new_body` nodes sorted by
ascending insertion index; when `new_body` is empty the emitted body is
empty (the import block included is dropped, line 510). -/
def leaveModule (importNodes : List Node) (st : ConvState) : List Node :=
  if st.newBody.length > 0 then
    importNodes ++ (sortBody st.newBody).map (fun p => p.2.node)
  else []

/-- Models the `config_body` finalization of `leave_Module` (lines 503-504):
when the attribute exists, the diff file's own import block is prepended. -/
def finalizeConfigBody (importNodes : List Node) (st : ConvState) :
    Option (List Node) :=
  match st.configBody with
  | some body => some (importNodes ++ body)
  | none => none

/-- One top-level class definition of the diff file, as consumed by
`leave_ClassDef`: its name, its declared base names, and its node. -/
structure ClassEvent where
  className : String
  rawBases : List String
  node : Node

/-- Processing the top-level class definitions of a diff module in source
order, propagating the first raised exception. -/
def processClassDefs (importedMapping : List (String × String))
    (finder : String → FinderData) (resolve : String → Node → Node) :
    List ClassEvent → ConvState → Except PyErr ConvState
  | [], st => .ok st
  | ev :: rest, st =>
    match leaveClassDef importedMapping finder resolve ev.className
        ev.rawBases ev.node st with
    | .error e => .error e
    | .ok st' => processClassDefs importedMapping finder resolve rest st'

/- ------------------------------------------------------------------ -/
/- ReplaceNameTransformer (lines 166-201)                              -/
/- ------------------------------------------------------------------ -/

/-- Case-insensitive character comparison, as `re.IGNORECASE` compares the
ASCII identifier characters handled by the renamer. -/
def ciEq (a b : Char) : Bool :=
  a.toLower == b.toLower

/-- Case-insensitive "k is a prefix of s" test: how a literal alternative
of the compiled `re.IGNORECASE` regex matches at a position. -/
def ciStarts : List Char → List Char → Bool
  | [], _ => true
  | _ :: _, [] => false
  | a :: as, b :: bs => ciEq a b && ciStarts as bs

/-- True when `k` case-insensitively mismatches `occ` at some index within
`occ`'s span — then `k` can match at `occ`'s start for NO continuation of
the text. -/
def ciClash : List Char → List Char → Bool
  | _, [] => false
  | [], _ :: _ => false
  | a :: as, b :: bs => !(ciEq a b) || ciClash as bs

/-- The scanner of `re.sub` with a case-insensitive alternation of literal
keys: at each position the first alternative (in key order) that matches
wins, the matched span (of that key's length) is replaced by
`tbl span`, and scanning resumes after it; otherwise the character is
copied.  The `fuel` argument only forces structural termination; it starts
at the text length, which bounds the number of steps. -/
def ciSubAux (keys : List (List Char)) (tbl : List Char → List Char) :
    Nat → List Char → List Char
  | _, [] => []
  | 0, s => s
  | fuel + 1, c :: t =>
    match keys.find? (fun k => !k.isEmpty && ciStarts k (c :: t)) with
    | some k =>
      tbl ((c :: t).take k.length)
        ++ ciSubAux keys tbl fuel ((c :: t).drop k.length)
    | none => c :: ciSubAux keys tbl fuel t

def ciSub (keys : List (List Char)) (tbl : List Char → List Char)
    (s : List Char) : List Char :=
  ciSubAux keys tbl s.length s

/-- Python `str.title()` on character lists: an alphabetic character is
uppercased when the previous character is not alphabetic and lowercased
otherwise (the flag tracks whether the previous character was
alphabetic). -/
def pyTitleAux : Bool → List Char → List Char
  | _, [] => []
  | prevAlpha, c :: rest =>
    if c.isAlpha then
      (if prevAlpha then c.toLower else c.toUpper) :: pyTitleAux true rest
    else c :: pyTitleAux false rest

def pyTitle (s : List Char) : List Char :=
  pyTitleAux false s

/-- Python `str.upper()` on strings (ASCII). -/
def pyUpper (s : String) : String :=
  String.mk (s.toList.map Char.toUpper)

/-- The PascalCase form `"".join(x.title() for x in name.split("_"))`
(lines 180 and 184). -/
def pascalize (s : String) : String :=
  String.mk (((splitOnChar '_' s.toList).map pyTitle).flatten)

/-- Python dict display on string pairs: later duplicate keys overwrite
earlier ones in place. -/
def pyDictOfStr (l : List (String × String)) : List (String × String) :=
  l.foldl (fun m p => pyInsert m p.1 p.2) []

/-- Models `self.patterns` of `ReplaceNameTransformer.__init__`
(lines 181-185): the dict
`{old: new, old.upper(): new.upper(), Pascal(old): Pascal(new)}`. -/
def renamePatterns (oldName newName : String) : List (String × String) :=
  pyDictOfStr [(oldName, newName),
    (pyUpper oldName, pyUpper newName),
    (pascalize oldName, pascalize newName)]

/-- Python `self.patterns.get(word, self.default_name)` (line 194). -/
def patternsGet (d : List (String × String)) (word dflt : String) : String :=
  match d.lookup word with
  | some v => v
  | none => dflt

/-- Models `ReplaceNameTransformer.preserve_case_replace(text)`
(lines 187-196): one case-insensitive alternation regex over the pattern
keys in dict order, each matched span substituted by the exact-case table
entry for the matched text, defaulting to the PascalCase of `new_name`. -/
def preserveCaseReplace (oldName newName : String) (text : String) : String :=
  String.mk (ciSub
    ((renamePatterns oldName newName).map (fun p => p.1.toList))
    (fun w => (patternsGet (renamePatterns oldName newName) (String.mk w)
      (pascalize newName)).toList)
    text.toList)

/-- The three case variants of an identifier handled by the renamer. -/
inductive CaseVariant where
  | snake
  | upper
  | pascal
deriving DecidableEq, Repr

def variantOf (name : String) : CaseVariant → String
  | .snake => name
  | .upper => pyUpper name
  | .pascal => pascalize name

/-- A segment of an input text of claim C4: either literal text or an
occurrence of one of the case variants of the identifier being renamed. -/
inductive RenameTok where
  | lit (s : String)
  | occ (v : CaseVariant)

/-- Rendering a token list as the text containing the given identifier's
variants at the occurrence positions. -/
def renderToks (name : String) : List RenameTok → List Char
  | [] => []
  | RenameTok.lit s :: ts => s.toList ++ renderToks name ts
  | RenameTok.occ v :: ts => (variantOf name v).toList ++ renderToks name ts

/-- Claim C4's "no accidental substrings" for one literal segment: no key
of the alternation matches case-insensitively at any position inside the
segment (also not spanning into the following text). -/
def litSafe (keys : List (List Char)) : List Char → List Char → Bool
  | [], _ => true
  | c :: t, rest =>
    keys.all (fun k => !(ciStarts k (c :: (t ++ rest)))) && litSafe keys t rest

/-- Claim C4's "no accidental substrings" over a whole decomposition: every
literal segment is safe for the given key set against the text that follows
it (rendered with `name` at the occurrences). -/
def decompSafe (keys : List (List Char)) (name : String) :
    List RenameTok → Bool
  | [] => true
  | RenameTok.lit s :: ts =>
    litSafe keys s.toList (renderToks name ts) && decompSafe keys name ts
  | RenameTok.occ _ :: ts => decompSafe keys name ts

/- ------------------------------------------------------------------ -/
/- SuperTransformer and replace_call_to_super (lines 228-348)          -/
/- ------------------------------------------------------------------ -/

/-- Structural classification of one statement of a method body, as far as
the matchers of `SuperTransformer` inspect it: a `return super().m(...)` or
bare expression statement `super().m(...)` (the matcher of lines 263-275,
both shapes trigger the same splice), a docstring statement
(`DOCSTRING_NODE`, lines 216-225), or anything else. -/
inductive StmtKind where
  | superCall (meth : String)
  | docstring
  | plain
deriving DecidableEq, Repr

/-- One statement of a method body: its stripped source text
(`code_for_node(stmt).strip()`, the unit of comparison of `update_body`)
and its structural kind. -/
structure Stmt where
  code : String
  kind : StmtKind
deriving DecidableEq, Repr

/-- Models `SuperTransformer.update_body(existing_body, new_statements)`
(lines 236-252): parent statements whose stripped source text occurs among
the override's statements are dropped, and a docstring statement is dropped
when the override already starts with a docstring.  (The
`existing_nodes.add(stmt)` of line 249 adds a node OBJECT to a set of
strings, which can never affect the string membership test of line 245, so
it has no observable effect.) -/
def updateBody (existingBody newStatements : List Stmt)
    (hasDocstring : Bool) : List Stmt :=
  existingBody.filter (fun stmt =>
    if stmt.code ∈ newStatements.map (fun s => s.code) then false
    else if stmt.kind = StmtKind.docstring ∧ hasDocstring = true then false
    else true)

/-- Models the `has_docstring` flag of `replace_super_calls`: it is
re-assigned on every loop iteration to
`m.matches(node.body[0], DOCSTRING_NODE)` (line 262), i.e. it is constant
over the loop and `False` for an empty body (initial value, line 260). -/
def bodyHasDocstring (body : List Stmt) : Bool :=
  match body.head? with
  | some s => if s.kind = StmtKind.docstring then true else false
  | none => false

/-- Models `SuperTransformer.replace_super_calls(node, func_name)`
(lines 254-279): every statement of the (already substituted) override body
of shape `return super().func_name(...)` or `super().func_name(...)` is
replaced by the deduplicated parent statements
(`update_body(original_methods[func_name].body.body, node.body)`); every
other statement is kept. -/
def replaceSuperCalls (overrideBody : List Stmt) (funcName : String)
    (parentBody : List Stmt) : List Stmt :=
  (overrideBody.map (fun expr =>
    if expr.kind = StmtKind.superCall funcName then
      updateBody parentBody overrideBody (bodyHasDocstring overrideBody)
    else [expr])).flatten

/-- One parameter of a method signature: its name
(`k.name.value`) and an opaque tag standing for the rest of the libcst
`Param` node, so that equal-named parameters of base and override stay
distinguishable. -/
structure PyParam where
  name : String
  tag : Nat
deriving DecidableEq, Repr

/-- A libcst `Parameters` object, restricted to the fields
`replace_call_to_super` reads: the positional `params` list and the
optional `star_kwarg`. -/
structure PyParams where
  params : List PyParam
  starKwarg : Option PyParam
deriving DecidableEq, Repr

/-- Python dict comprehension/update `{k.name.value: k for k in ps}`
folded into an accumulator dict (lines 335-336). -/
def paramDictExtend (m : List (String × PyParam)) (ps : List PyParam) :
    List (String × PyParam) :=
  ps.foldl (fun acc p => pyInsert acc p.name p) m

/-- Models the parameter merging of `replace_call_to_super` (lines
329-341): when the override's variadic keyword parameter is literally named
`super_kwargs`, the parent's parameters are updated by name with the
override's parameters minus the first (`self`), and the star-kwarg slot of
the result is the PARENT's `func.params.star_kwarg` (line 338); otherwise
the override's parameter object is used unchanged. -/
def mergeParams (funcParams newParams : PyParams) : PyParams :=
  match newParams.starKwarg with
  | some kw =>
    if kw.name = "super_kwargs" then
      { params := (paramDictExtend (paramDictExtend [] funcParams.params)
          (newParams.params.drop 1)).map Prod.snd,
        starKwarg := funcParams.starKwarg }
    else newParams
  | none => newParams

/-- A method of a class body: parameters and statement list. -/
structure PyMethod where
  params : PyParams
  body : List Stmt
deriving DecidableEq, Repr

/-- Models `replace_call_to_super` (lines 304-348) composed with the
`SuperTransformer` traversal it runs (lines 343-347), at the level of named
methods: every base-class method that the subclass overrides gets the
override's body (line 340) with its `super().<name>(...)` statements
spliced by `replace_super_calls` against the base's ORIGINAL body
(`original_methods[func_name].body.body`, line 276), and its parameters
merged by `mergeParams`; base methods without an override are kept
unchanged.  Methods existing only in the override are dropped, as in the
source, which iterates `original_methods` only; nameless body statements
(the `hasattr(f, "name")` fallback of lines 326-327) are not modelled. -/
def replaceCallToSuper
    (originalMethods updatedMethods : List (String × PyMethod)) :
    List (String × PyMethod) :=
  originalMethods.map (fun nf =>
    match updatedMethods.lookup nf.1 with
    | some upd =>
      (nf.1, { params := mergeParams nf.2.params upd.params,
               body := replaceSuperCalls upd.body nf.1 nf.2.body })
    | none => nf)

/- ------------------------------------------------------------------ -/
/- visit_ImportFrom (lines 370-391)                                    -/
/- ------------------------------------------------------------------ -/

/-- The literal prefix `transformers.models.` of the import-path pattern. -/
def anchorLit : List Char := "transformers.models.".toList

/-- Scanning for the leftmost occurrence of `transformers.models.`,
returning the characters after it: the position at which `re.search`
anchors the pattern.  (If the rest of the pattern completes after a later
occurrence of the literal, it also completes after the first one — the
required dot-plus-keyword lies even further right — so anchoring at the
first occurrence is faithful to `re.search`'s leftmost-match rule.) -/
def findAnchorSuffix : List Char → Option (List Char)
  | [] => none
  | c :: t =>
    if anchorLit.isPrefixOf (c :: t) then some ((c :: t).drop anchorLit.length)
    else findAnchorSuffix t

/-- The alternation `(modeling|configuration)_` tested right after a dot;
`modeling` is tried first, as in the regex. -/
def keywordAt (s : List Char) : Option String :=
  if "modeling_".toList.isPrefixOf s then some "modeling"
  else if "configuration_".toList.isPrefixOf s then some "configuration"
  else none

/-- The captured group of the trailing `.*\.(modeling|configuration)_.*`:
the keyword after the LAST dot followed by `modeling_` or `configuration_`
(the leading `.*` is greedy, so the rightmost occurrence is the one
captured). -/
def findLastKeyword : List Char → Option String
  | [] => none
  | c :: t =>
    match findLastKeyword t with
    | some g => some g
    | none => if c = '.' then keywordAt t else none

/-- Models
`re.search(r"transformers\.models\..*\.(modeling|configuration)_.*", path)`
of line 379 on newline-free input (dotted module paths contain no newline,
which `.` does not match): the captured group, or `none` when the pattern
does not match. -/
def importPathGroup (path : String) : Option String :=
  match findAnchorSuffix path.toList with
  | some rest => findLastKeyword rest
  | none => none

/-- Models the loop body of `visit_ImportFrom` (lines 378-391) over the
imported names of one dotted import statement: a name containing "Config"
imported from a `modeling` path raises the `ValueError` of lines 383-385;
otherwise, when the path matches the pattern, the name is recorded in
`imported_mapping`; a non-matching path records nothing.  (The one-time
loading and parsing of the imported module's source, lines 386-389, is an
external effect that no claim depends on and is not modelled.) -/
def visitImportFromNames (modulePath : String) :
    List String → List (String × String) →
    Except PyErr (List (String × String))
  | [], mapping => .ok mapping
  | name :: rest, mapping =>
    match importPathGroup modulePath with
    | some source =>
      if source = "modeling" ∧ strContains name "Config" then
        .error (.valueError ("You are importing " ++ name
          ++ " from the modeling file. Import from the `configuration_xxxx.py` file instead"))
      else visitImportFromNames modulePath rest (pyInsert mapping name modulePath)
    | none => visitImportFromNames modulePath rest mapping

/-- Models `DiffConverterTransformer.visit_ImportFrom` (lines 370-391):
the name loop runs only when the module reference is a dotted attribute
(`m.matches(node.module, m.Attribute())`). -/
def visitImportFrom (modulePath : String) (isDotted : Bool)
    (names : List String) (mapping : List (String × String)) :
    Except PyErr (List (String × String)) :=
  if isDotted then visitImportFromNames modulePath names mapping
  else .ok mapping

/- ------------------------------------------------------------------ -/
/- convert_file (lines 514-538)                                        -/
/- ------------------------------------------------------------------ -/

/-- Models Python `str.replace(old, new)` on character lists (replaces all
non-overlapping occurrences from the left).  The `fuel` argument only forces
structural termination; called with `fuel = s.length`, which bounds the
number of steps, it computes the full replacement. -/
def replaceAllAux (pat rep : List Char) : Nat → List Char → List Char
  | _, [] => []
  | 0, s => s
  | fuel + 1, c :: t =>
    if !pat.isEmpty && pat.isPrefixOf (c :: t) then
      rep ++ replaceAllAux pat rep fuel ((c :: t).drop pat.length)
    else c :: replaceAllAux pat rep fuel t

/-- Python `s.replace(pat, rep)` on strings. -/
def strReplace (s pat rep : String) : String :=
  String.mk (replaceAllAux pat.toList rep.toList s.toList.length s.toList)

/-- Python `str.strip()` on character lists: leading and trailing
whitespace removed. -/
def pyStrip (s : List Char) : List Char :=
  ((s.dropWhile Char.isWhitespace).reverse.dropWhile Char.isWhitespace).reverse

/-- The fixed auto-generated-file warning banner `AUTO_GENERATED_MESSAGE`
(lines 33-39); the decorative emoji border rows are elided, only the text
rows are kept (no claim depends on the banner's exact content). -/
def autoGeneratedMessage : String :=
  "#               This file was automatically generated from <path_to_diff_file.py>.\n#         Do NOT edit this file manually as any edits will be overwritten by the generation of\n#         the file from the diff. If any change should be done, please apply the change to the\n#                                    diff.py file directly.\n"

/-- The outcome of the tree traversal consumed by `convert_file`: the code
of the transformed module (`new_mod.code`) and, when the transformer has a
`config_body` attribute, the code of the configuration module assembled
from it (`cst.Module(body=[*config_body], header=new_mod.header).code`). -/
structure TransformOut where
  code : String
  configCode : Option String
deriving DecidableEq, Repr

/-- Models `convert_file` (lines 514-538) from the point where the
transformation result is available: the transformed code is passed twice
through `run_ruff` (autofix, then format-only) and the modeling file
`diff_ -> modeling_` is written only when the formatted text strips to a
non-empty string; the configuration file `diff_ -> configuration_` is
written whenever `config_body` exists, irrespective of the modeling text.
A raised exception propagates and nothing is written.  The result is the
list of `(filename, content)` writes in order. -/
def convertFile (diffFile : String) (runRuff : String → Bool → String)
    (transformed : Except PyErr TransformOut) :
    Except PyErr (List (String × String)) :=
  match transformed with
  | .error e => .error e
  | .ok t =>
    .ok ((if 0 < (pyStrip (runRuff (runRuff t.code true) false).toList).length then
        [(strReplace diffFile "diff_" "modeling_",
          autoGeneratedMessage ++ runRuff (runRuff t.code true) false)]
      else [])
      ++ (match t.configCode with
        | some cfgCode =>
          [(strReplace diffFile "diff_" "configuration_",
            autoGeneratedMessage ++ runRuff (runRuff cfgCode true) false)]
        | none => []))

instance : IsTotal (String × BodyEntry) bodyLe :=
  ⟨fun a b => Int.le_total a.2.insertIdx b.2.insertIdx⟩

instance : IsTrans (String × BodyEntry) bodyLe :=
  ⟨fun _ _ _ hab hbc => Int.le_trans hab hbc⟩

/- ------------------------------------------------------------------ -/
/- Theorems                                                            -/
/- ------------------------------------------------------------------ -/

theorem updateClassDependency_self (m : DepMap) (name value : String) :
    updateClassDependency m name value name = m value ∪ m name ∪ {value} := by
  simp [updateClassDependency]

theorem updateClassDependency_other (m : DepMap) (name value k : String)
    (h : k ≠ name) : updateClassDependency m name value k = m k := by
  simp [updateClassDependency, h]

theorem updateClassDependency_mono (m : DepMap) (name value k : String) :
    m k ⊆ updateClassDependency m name value k := by
  by_cases h : k = name
  · subst h
    rw [updateClassDependency_self]
    exact Finset.subset_union_right.trans Finset.subset_union_left
  · rw [updateClassDependency_other m name value k h]

theorem visitClassDefDeps_mono (m : DepMap) (cn : String) (bs : List String)
    (k : String) : m k ⊆ visitClassDefDeps m cn bs k := by
  induction bs generalizing m with
  | nil => simp [visitClassDefDeps]
  | cons b rest ih =>
    unfold visitClassDefDeps at *
    simp only [List.foldl_cons]
    exact (updateClassDependency_mono m cn b k).trans (ih _)

theorem processClasses_mono (m : DepMap) (cs : List (String × List String))
    (k : String) : m k ⊆ processClasses m cs k := by
  induction cs generalizing m with
  | nil => simp [processClasses]
  | cons c rest ih =>
    unfold processClasses at *
    simp only [List.foldl_cons]
    exact (visitClassDefDeps_mono m c.1 c.2 k).trans (ih _)

theorem visitClassDefDeps_base_subset (m : DepMap) (cn : String)
    (bs : List String) (b : String) (hb : b ∈ bs) :
    m b ⊆ visitClassDefDeps m cn bs cn := by
  induction bs generalizing m with
  | nil => cases hb
  | cons hd rest ih =>
    unfold visitClassDefDeps at *
    simp only [List.foldl_cons]
    rcases List.mem_cons.mp hb with h | h
    · subst h
      have h1 : m b ⊆ updateClassDependency m cn b cn := by
        rw [updateClassDependency_self]
        exact Finset.subset_union_left.trans Finset.subset_union_left
      exact h1.trans (visitClassDefDeps_mono _ cn rest cn)
    · exact (updateClassDependency_mono m cn hd b).trans (ih _ h)

/-- Claim C5: `_update_class_dependency(name, value)` sets the set recorded
for `name` to the union of `value`'s current set, `name`'s previous set and
the singleton of `value` (and touches no other key); over any sequence of
class definitions processed in order, a class's resulting set contains every
dependency set previously recorded for any base it names, and no recorded
dependency set ever shrinks. -/
theorem c5_dependency_union_and_monotonicity (m : DepMap) (name value : String)
    (cs pre post : List (String × List String)) (cn : String)
    (bs : List String) (b : String)
    (hcs : cs = pre ++ (cn, bs) :: post) (hb : b ∈ bs) :
    (updateClassDependency m name value name = m value ∪ m name ∪ {value}
      ∧ ∀ k, k ≠ name → updateClassDependency m name value k = m k)
    ∧ (∀ (m' : DepMap) (name' value' k : String),
        m' k ⊆ updateClassDependency m' name' value' k)
    ∧ (∀ k, m k ⊆ processClasses m cs k)
    ∧ processClasses m pre b ⊆ processClasses m cs cn := by
  refine ⟨⟨updateClassDependency_self m name value,
      fun k hk => updateClassDependency_other m name value k hk⟩,
    fun m' n' v' k => updateClassDependency_mono m' n' v' k,
    fun k => processClasses_mono m cs k, ?_⟩
  subst hcs
  have hsplit : processClasses m (pre ++ (cn, bs) :: post)
      = processClasses (visitClassDefDeps (processClasses m pre) cn bs) post := by
    unfold processClasses
    rw [List.foldl_append, List.foldl_cons]
  rw [hsplit]
  exact (visitClassDefDeps_base_subset (processClasses m pre) cn bs b hb).trans
    (processClasses_mono _ post cn)

theorem lookup_map_overwrite {α : Type} (m : List (String × α)) (k : String)
    (v : α) :
    (m.map (fun p => if p.1 = k then (k, v) else p)).lookup k
      = if (m.lookup k).isSome then some v else none := by
  induction m with
  | nil => simp
  | cons p t ih =>
    simp only [List.map_cons]
    by_cases h : p.1 = k
    · rw [if_pos h, List.lookup_cons, List.lookup_cons]
      have h1 : (k == k) = true := beq_self_eq_true k
      have h2 : (k == p.1) = true := by rw [h]; exact beq_self_eq_true k
      rw [h1, h2]
      simp
    · rw [if_neg h, List.lookup_cons, List.lookup_cons]
      have h2 : (k == p.1) = false := beq_false_of_ne (Ne.symm h)
      rw [h2, ih]

theorem lookup_map_replace_ne {α : Type} (m : List (String × α)) (k x : String)
    (v : α) (h : x ≠ k) :
    (m.map (fun p => if p.1 = k then (k, v) else p)).lookup x = m.lookup x := by
  induction m with
  | nil => simp
  | cons p t ih =>
    simp only [List.map_cons]
    by_cases hp : p.1 = k
    · rw [if_pos hp, List.lookup_cons, List.lookup_cons]
      have hxk : (x == k) = false := beq_false_of_ne h
      have hxp : (x == p.1) = false := by rw [hp]; exact hxk
      rw [hxk, hxp, ih]
    · rw [if_neg hp, List.lookup_cons, List.lookup_cons]
      cases hxp : (x == p.1) with
      | true => rfl
      | false => rw [ih]

theorem lookup_append_first {α : Type} (m l : List (String × α)) (k : String) :
    ((m ++ l).lookup k) = ((m.lookup k).or (l.lookup k)) := by
  induction m with
  | nil => simp
  | cons p t ih =>
    rw [List.cons_append, List.lookup_cons, List.lookup_cons]
    cases hk : (k == p.1) with
    | true => simp
    | false => simpa using ih

theorem pyInsert_lookup_self {α : Type} (m : List (String × α)) (k : String)
    (v : α) : (pyInsert m k v).lookup k = some v := by
  unfold pyInsert
  by_cases h : (m.lookup k).isSome
  · rw [if_pos h, lookup_map_overwrite, if_pos h]
  · rw [if_neg h, lookup_append_first]
    rw [Option.not_isSome_iff_eq_none] at h
    rw [h]
    simp [List.lookup_cons]

theorem pyInsert_lookup_ne {α : Type} (m : List (String × α)) (k x : String)
    (v : α) (h : x ≠ k) : (pyInsert m k v).lookup x = m.lookup x := by
  unfold pyInsert
  by_cases hk : (m.lookup k).isSome
  · rw [if_pos hk]
    exact lookup_map_replace_ne m k x v h
  · rw [if_neg hk, lookup_append_first]
    have hx : (x == k) = false := beq_false_of_ne h
    simp [List.lookup_cons, hx]

theorem mem_of_lookup_eq {α : Type} {m : List (String × α)} {k : String}
    {v : α} (h : m.lookup k = some v) : (k, v) ∈ m := by
  induction m with
  | nil => simp [List.lookup] at h
  | cons p t ih =>
    rw [List.lookup_cons] at h
    cases hk : (k == p.1) with
    | true =>
      rw [hk] at h
      have h2 : p.2 = v := by simpa using h
      have hkp : k = p.1 := eq_of_beq hk
      have hpv : (k, v) = p := by
        rw [hkp, ← h2]
      rw [hpv]
      exact List.mem_cons_self p t
    | false =>
      rw [hk] at h
      exact List.mem_cons_of_mem _ (ih h)

theorem mem_pyInsert {α : Type} {m : List (String × α)} {k : String} {v : α}
    {p : String × α} (h : p ∈ pyInsert m k v) : p ∈ m ∨ p = (k, v) := by
  unfold pyInsert at h
  by_cases hk : (m.lookup k).isSome
  · rw [if_pos hk] at h
    rcases List.mem_map.mp h with ⟨q, hq, hfq⟩
    by_cases hq1 : q.1 = k
    · right
      rw [← hfq, if_pos hq1]
    · left
      rw [← hfq, if_neg hq1]
      exact hq
  · rw [if_neg hk] at h
    rcases List.mem_append.mp h with h | h
    · exact Or.inl h
    · right
      simpa using h

theorem sortBody_pairwise (l : List (String × BodyEntry)) :
    (sortBody l).Pairwise bodyLe :=
  List.sorted_insertionSort bodyLe l

theorem sortBody_perm (l : List (String × BodyEntry)) :
    (sortBody l).Perm l :=
  List.perm_insertionSort bodyLe l

theorem sortBody_strict_positions (l : List (String × BodyEntry))
    (a b : String × BodyEntry) (ha : a ∈ l) (hb : b ∈ l)
    (h : a.2.insertIdx < b.2.insertIdx) :
    ∃ i j : Fin (sortBody l).length, i.1 < j.1
      ∧ (sortBody l).get i = a ∧ (sortBody l).get j = b := by
  have ha' : a ∈ sortBody l := (sortBody_perm l).mem_iff.mpr ha
  have hb' : b ∈ sortBody l := (sortBody_perm l).mem_iff.mpr hb
  rcases List.mem_iff_get.mp ha' with ⟨i, hi⟩
  rcases List.mem_iff_get.mp hb' with ⟨j, hj⟩
  have hpw := List.pairwise_iff_get.mp (sortBody_pairwise l)
  rcases lt_trichotomy i.1 j.1 with hlt | heq | hgt
  · exact ⟨i, j, hlt, hi, hj⟩
  · exfalso
    have : a = b := by
      rw [← hi, ← hj]
      congr 1
      exact Fin.ext heq
    rw [this] at h
    exact lt_irrefl _ h
  · exfalso
    have := hpw j i hgt
    rw [hi, hj] at this
    exact absurd h (not_lt.mpr this)

theorem insertDep_preserve (gn : String → Option Node) (acc : ConvState × Int)
    (dep : String) :
    (insertDep gn acc dep).1.globalScopeIndex = acc.1.globalScopeIndex
      ∧ (insertDep gn acc dep).1.configBody = acc.1.configBody := by
  unfold insertDep
  cases hgn : gn dep with
  | none => exact ⟨rfl, rfl⟩
  | some n =>
    dsimp only
    cases hlk : acc.1.newBody.lookup dep with
    | none => exact ⟨rfl, rfl⟩
    | some e =>
      dsimp only
      by_cases hd : dep ∈ acc.1.insertedDeps
      · rw [if_pos hd]
        exact ⟨rfl, rfl⟩
      · rw [if_neg hd]
        exact ⟨rfl, rfl⟩

theorem insertDep_bound (gn : String → Option Node) (acc : ConvState × Int)
    (dep : String) (G : Int)
    (hb : ∀ p ∈ acc.1.newBody, p.2.insertIdx < G) (hs : acc.2 ≤ G) :
    (∀ p ∈ (insertDep gn acc dep).1.newBody, p.2.insertIdx < G)
      ∧ (insertDep gn acc dep).2 ≤ G := by
  unfold insertDep
  cases hgn : gn dep with
  | none => exact ⟨hb, hs⟩
  | some n =>
    dsimp only
    cases hlk : acc.1.newBody.lookup dep with
    | none =>
      dsimp only
      constructor
      · intro p hp
        rcases mem_pyInsert hp with h | h
        · exact hb p h
        · rw [h]
          show acc.2 - 1 < G
          omega
      · show acc.2 - 1 ≤ G
        omega
    | some e =>
      dsimp only
      have he : e.insertIdx < G := hb (dep, e) (mem_of_lookup_eq hlk)
      by_cases hd : dep ∈ acc.1.insertedDeps
      · rw [if_pos hd]
        exact ⟨hb, hs⟩
      · rw [if_neg hd]
        refine ⟨hb, ?_⟩
        show e.insertIdx - 1 ≤ G
        omega

theorem insertDep_persist (gn : String → Option Node) (acc : ConvState × Int)
    (dep x : String) (hx : (acc.1.newBody.lookup x).isSome) :
    (insertDep gn acc dep).1.newBody.lookup x = acc.1.newBody.lookup x := by
  unfold insertDep
  cases hgn : gn dep with
  | none => rfl
  | some n =>
    dsimp only
    cases hlk : acc.1.newBody.lookup dep with
    | none =>
      dsimp only
      have hxd : x ≠ dep := by
        intro hxe
        rw [hxe, hlk] at hx
        simp at hx
      exact pyInsert_lookup_ne acc.1.newBody dep x _ hxd
    | some e =>
      dsimp only
      by_cases hd : dep ∈ acc.1.insertedDeps
      · rw [if_pos hd]
      · rw [if_neg hd]

theorem insertDep_present (gn : String → Option Node) (acc : ConvState × Int)
    (dep : String) (n : Node) (G : Int)
    (hgn : gn dep = some n)
    (hb : ∀ p ∈ acc.1.newBody, p.2.insertIdx < G) (hs : acc.2 ≤ G) :
    ∃ e, (insertDep gn acc dep).1.newBody.lookup dep = some e
      ∧ e.insertIdx < G := by
  unfold insertDep
  rw [hgn]
  dsimp only
  cases hlk : acc.1.newBody.lookup dep with
  | none =>
    dsimp only
    refine ⟨⟨acc.2 - 1, n⟩, ?_, by
      show acc.2 - 1 < G
      omega⟩
    exact pyInsert_lookup_self acc.1.newBody dep _
  | some e =>
    dsimp only
    have he : e.insertIdx < G := hb (dep, e) (mem_of_lookup_eq hlk)
    by_cases hd : dep ∈ acc.1.insertedDeps
    · rw [if_pos hd]
      exact ⟨e, hlk, he⟩
    · rw [if_neg hd]
      exact ⟨e, hlk, he⟩

theorem insertDeps_cons (gn : String → Option Node) (d : String)
    (ds : List String) (st : ConvState) (startIdx : Int) :
    insertDeps gn (d :: ds) st startIdx
      = insertDeps gn ds (insertDep gn (st, startIdx) d).1
          (insertDep gn (st, startIdx) d).2 := by
  unfold insertDeps
  rw [List.foldl_cons]

theorem insertDeps_preserve (gn : String → Option Node) (deps : List String)
    (st : ConvState) (startIdx : Int) :
    (insertDeps gn deps st startIdx).1.globalScopeIndex = st.globalScopeIndex
      ∧ (insertDeps gn deps st startIdx).1.configBody = st.configBody := by
  induction deps generalizing st startIdx with
  | nil => exact ⟨rfl, rfl⟩
  | cons d ds ih =>
    rw [insertDeps_cons]
    rcases insertDep_preserve gn (st, startIdx) d with ⟨h1, h2⟩
    rcases ih (insertDep gn (st, startIdx) d).1 (insertDep gn (st, startIdx) d).2
      with ⟨h3, h4⟩
    exact ⟨h3.trans h1, h4.trans h2⟩

theorem insertDeps_bound (gn : String → Option Node) (deps : List String)
    (st : ConvState) (startIdx : Int) (G : Int)
    (hb : ∀ p ∈ st.newBody, p.2.insertIdx < G) (hs : startIdx ≤ G) :
    (∀ p ∈ (insertDeps gn deps st startIdx).1.newBody, p.2.insertIdx < G)
      ∧ (insertDeps gn deps st startIdx).2 ≤ G := by
  induction deps generalizing st startIdx with
  | nil => exact ⟨hb, hs⟩
  | cons d ds ih =>
    rw [insertDeps_cons]
    rcases insertDep_bound gn (st, startIdx) d G hb hs with ⟨h1, h2⟩
    exact ih _ _ h1 h2

theorem insertDeps_persist (gn : String → Option Node) (deps : List String)
    (st : ConvState) (startIdx : Int) (x : String)
    (hx : (st.newBody.lookup x).isSome) :
    (insertDeps gn deps st startIdx).1.newBody.lookup x
      = st.newBody.lookup x := by
  induction deps generalizing st startIdx with
  | nil => rfl
  | cons d ds ih =>
    rw [insertDeps_cons]
    have h1 := insertDep_persist gn (st, startIdx) d x hx
    have hx' : ((insertDep gn (st, startIdx) d).1.newBody.lookup x).isSome := by
      rw [h1]
      exact hx
    rw [ih _ _ hx', h1]

theorem insertDeps_present (gn : String → Option Node) (deps : List String)
    (st : ConvState) (startIdx : Int) (dep : String) (n : Node) (G : Int)
    (hdep : dep ∈ deps) (hgn : gn dep = some n)
    (hb : ∀ p ∈ st.newBody, p.2.insertIdx < G) (hs : startIdx ≤ G) :
    ∃ e, (insertDeps gn deps st startIdx).1.newBody.lookup dep = some e
      ∧ e.insertIdx < G := by
  induction deps generalizing st startIdx with
  | nil => cases hdep
  | cons d ds ih =>
    rw [insertDeps_cons]
    rcases insertDep_bound gn (st, startIdx) d G hb hs with ⟨h1, h2⟩
    rcases List.mem_cons.mp hdep with hEq | hmem
    · subst hEq
      rcases insertDep_present gn (st, startIdx) dep n G hgn hb hs with ⟨e, he, heG⟩
      refine ⟨e, ?_, heG⟩
      rw [insertDeps_persist gn ds _ _ dep (by rw [he]; rfl), he]
    · exact ih _ _ hmem h1 h2

theorem processSuper_ok (im : List (String × String))
    (f : String → FinderData) (r : String → Node → Node) (cn : String)
    (acc : ConvState × Node) (b : String) (acc' : ConvState × Node)
    (h : processSuper im f r cn acc b = .ok acc') :
    ∃ sf, im.lookup b = some sf
      ∧ acc'.1 = (insertDeps (f sf).globalNodes ((f sf).depsFor cn) acc.1
          acc.1.globalScopeIndex).1 := by
  unfold processSuper at h
  cases hlk : im.lookup b with
  | none =>
    rw [hlk] at h
    simp at h
  | some sf =>
    rw [hlk] at h
    dsimp only at h
    cases hmn : getModelName sf with
    | error e =>
      rw [hmn] at h
      simp at h
    | ok mn =>
      rw [hmn] at h
      dsimp only at h
      refine ⟨sf, rfl, ?_⟩
      have := congrArg Prod.fst (Except.ok.inj h)
      exact this.symm

theorem processSuper_not_importError (im : List (String × String))
    (f : String → FinderData) (r : String → Node → Node) (cn : String)
    (acc : ConvState × Node) (b : String) (msg : String)
    (hb : (im.lookup b).isSome) :
    processSuper im f r cn acc b ≠ .error (.importError msg) := by
  unfold processSuper
  cases hlk : im.lookup b with
  | none =>
    rw [hlk] at hb
    simp at hb
  | some sf =>
    dsimp only
    cases hmn : getModelName sf with
    | error e =>
      have he : ∃ m, e = PyErr.valueError m := by
        unfold getModelName at hmn
        cases hug : underscoreGroup sf.toList with
        | some g =>
          rw [hug] at hmn
          simp at hmn
        | none =>
          rw [hug] at hmn
          dsimp only at hmn
          exact ⟨_, (Except.error.inj hmn).symm⟩
      rcases he with ⟨m, hm⟩
      subst hm
      intro hcon
      have := Except.error.inj hcon
      simp at this
    | ok mn =>
      dsimp only
      intro hcon
      simp at hcon

theorem foldSupers_preserve (im : List (String × String))
    (f : String → FinderData) (r : String → Node → Node) (cn : String)
    (bases : List String) (acc : ConvState × Node) (acc' : ConvState × Node)
    (h : foldSupers im f r cn bases acc = .ok acc') :
    acc'.1.globalScopeIndex = acc.1.globalScopeIndex
      ∧ acc'.1.configBody = acc.1.configBody := by
  induction bases generalizing acc with
  | nil =>
    unfold foldSupers at h
    rw [Except.ok.inj h]
    exact ⟨rfl, rfl⟩
  | cons b rest ih =>
    unfold foldSupers at h
    cases hps : processSuper im f r cn acc b with
    | error e =>
      rw [hps] at h
      simp at h
    | ok acc1 =>
      rw [hps] at h
      dsimp only at h
      rcases processSuper_ok im f r cn acc b acc1 hps with ⟨sf, _, hst⟩
      rcases ih acc1 h with ⟨h1, h2⟩
      rcases insertDeps_preserve (f sf).globalNodes ((f sf).depsFor cn) acc.1
        acc.1.globalScopeIndex with ⟨h3, h4⟩
      rw [hst] at h1 h2
      exact ⟨h1.trans h3, h2.trans h4⟩

theorem foldSupers_bound (im : List (String × String))
    (f : String → FinderData) (r : String → Node → Node) (cn : String)
    (bases : List String) (acc : ConvState × Node) (acc' : ConvState × Node)
    (G : Int) (h : foldSupers im f r cn bases acc = .ok acc')
    (hG : acc.1.globalScopeIndex = G)
    (hb : ∀ p ∈ acc.1.newBody, p.2.insertIdx < G) :
    ∀ p ∈ acc'.1.newBody, p.2.insertIdx < G := by
  induction bases generalizing acc with
  | nil =>
    unfold foldSupers at h
    rw [← Except.ok.inj h]
    exact hb
  | cons b rest ih =>
    unfold foldSupers at h
    cases hps : processSuper im f r cn acc b with
    | error e =>
      rw [hps] at h
      simp at h
    | ok acc1 =>
      rw [hps] at h
      dsimp only at h
      rcases processSuper_ok im f r cn acc b acc1 hps with ⟨sf, _, hst⟩
      have hbound := (insertDeps_bound (f sf).globalNodes ((f sf).depsFor cn)
        acc.1 acc.1.globalScopeIndex G hb (le_of_eq hG)).1
      have hgsi := (insertDeps_preserve (f sf).globalNodes ((f sf).depsFor cn)
        acc.1 acc.1.globalScopeIndex).1
      apply ih acc1 h
      · rw [hst, hgsi, hG]
      · rw [hst]
        exact hbound

theorem foldSupers_persist (im : List (String × String))
    (f : String → FinderData) (r : String → Node → Node) (cn : String)
    (bases : List String) (acc : ConvState × Node) (acc' : ConvState × Node)
    (x : String) (h : foldSupers im f r cn bases acc = .ok acc')
    (hx : (acc.1.newBody.lookup x).isSome) :
    acc'.1.newBody.lookup x = acc.1.newBody.lookup x := by
  induction bases generalizing acc with
  | nil =>
    unfold foldSupers at h
    rw [Except.ok.inj h]
  | cons b rest ih =>
    unfold foldSupers at h
    cases hps : processSuper im f r cn acc b with
    | error e =>
      rw [hps] at h
      simp at h
    | ok acc1 =>
      rw [hps] at h
      dsimp only at h
      rcases processSuper_ok im f r cn acc b acc1 hps with ⟨sf, _, hst⟩
      have hpers := insertDeps_persist (f sf).globalNodes ((f sf).depsFor cn)
        acc.1 acc.1.globalScopeIndex x hx
      have hx1 : (acc1.1.newBody.lookup x).isSome := by
        rw [hst, hpers]
        exact hx
      rw [ih acc1 h hx1, hst, hpers]

theorem foldSupers_present (im : List (String × String))
    (f : String → FinderData) (r : String → Node → Node) (cn : String)
    (bases : List String) (acc : ConvState × Node) (acc' : ConvState × Node)
    (b sf dep : String) (n : Node) (G : Int)
    (h : foldSupers im f r cn bases acc = .ok acc')
    (hG : acc.1.globalScopeIndex = G)
    (hb : ∀ p ∈ acc.1.newBody, p.2.insertIdx < G)
    (hmem : b ∈ bases) (hsf : im.lookup b = some sf)
    (hdep : dep ∈ (f sf).depsFor cn)
    (hgn : (f sf).globalNodes dep = some n) :
    ∃ e, acc'.1.newBody.lookup dep = some e ∧ e.insertIdx < G := by
  induction bases generalizing acc with
  | nil => cases hmem
  | cons hd rest ih =>
    unfold foldSupers at h
    cases hps : processSuper im f r cn acc hd with
    | error e =>
      rw [hps] at h
      simp at h
    | ok acc1 =>
      rw [hps] at h
      dsimp only at h
      rcases processSuper_ok im f r cn acc hd acc1 hps with ⟨sf', hsf', hst⟩
      have hgsi := (insertDeps_preserve (f sf').globalNodes
        ((f sf').depsFor cn) acc.1 acc.1.globalScopeIndex).1
      have hbound := (insertDeps_bound (f sf').globalNodes ((f sf').depsFor cn)
        acc.1 acc.1.globalScopeIndex G hb (le_of_eq hG)).1
      rcases List.mem_cons.mp hmem with hEq | hmem'
      · subst hEq
        have hsame : sf' = sf := by
          rw [hsf] at hsf'
          exact (Option.some.inj hsf').symm
        subst hsame
        rcases insertDeps_present (f sf').globalNodes ((f sf').depsFor cn)
          acc.1 acc.1.globalScopeIndex dep n G hdep hgn hb (le_of_eq hG)
          with ⟨e, he, heG⟩
        refine ⟨e, ?_, heG⟩
        have hx1 : (acc1.1.newBody.lookup dep).isSome := by
          rw [hst, he]
          rfl
        rw [foldSupers_persist im f r cn rest acc1 acc' dep h hx1, hst, he]
      · refine ih acc1 h ?_ ?_ hmem'
        · rw [hst, hgsi, hG]
        · rw [hst]
          exact hbound

theorem foldSupers_not_importError (im : List (String × String))
    (f : String → FinderData) (r : String → Node → Node) (cn : String)
    (bases : List String) (acc : ConvState × Node) (msg : String)
    (hb : ∀ b ∈ bases, (im.lookup b).isSome) :
    foldSupers im f r cn bases acc ≠ .error (.importError msg) := by
  induction bases generalizing acc with
  | nil =>
    unfold foldSupers
    simp
  | cons b rest ih =>
    unfold foldSupers
    cases hps : processSuper im f r cn acc b with
    | error e =>
      intro hcon
      have he : e = PyErr.importError msg := Except.error.inj hcon
      subst he
      exact processSuper_not_importError im f r cn acc b msg
        (hb b (List.mem_cons_self b rest)) hps
    | ok acc1 =>
      dsimp only
      exact ih acc1 (fun x hx => hb x (List.mem_cons_of_mem b hx))

theorem leaveClassDef_config_replaces (im : List (String × String))
    (f : String → FinderData) (r : String → Node → Node) (cn : String)
    (rawBases : List String) (node : Node) (st st' : ConvState)
    (hcfg : strContains cn "Config" = true)
    (h : leaveClassDef im f r cn rawBases node st = .ok st') :
    ∃ n', st'.configBody = some [n'] := by
  unfold leaveClassDef at h
  dsimp only at h
  cases hfold : foldSupers im f r cn
      (rawBases.filter (fun b => (im.lookup b).isSome))
      ({ st with globalScopeIndex := st.globalScopeIndex + 100 }, node) with
  | error e =>
    rw [hfold] at h
    simp at h
  | ok acc1 =>
    obtain ⟨st2, node2⟩ := acc1
    rw [hfold] at h
    dsimp only at h
    rw [hcfg] at h
    simp only [if_true] at h
    refine ⟨node2, ?_⟩
    rw [← Except.ok.inj h]

theorem leaveClassDef_nonconfig_preserves (im : List (String × String))
    (f : String → FinderData) (r : String → Node → Node) (cn : String)
    (rawBases : List String) (node : Node) (st st' : ConvState)
    (hcfg : strContains cn "Config" = false)
    (h : leaveClassDef im f r cn rawBases node st = .ok st') :
    st'.configBody = st.configBody := by
  unfold leaveClassDef at h
  dsimp only at h
  cases hfold : foldSupers im f r cn
      (rawBases.filter (fun b => (im.lookup b).isSome))
      ({ st with globalScopeIndex := st.globalScopeIndex + 100 }, node) with
  | error e =>
    rw [hfold] at h
    simp at h
  | ok acc1 =>
    obtain ⟨st2, node2⟩ := acc1
    rw [hfold] at h
    dsimp only at h
    rw [hcfg] at h
    simp only [Bool.false_eq_true, if_false] at h
    have hcb := (foldSupers_preserve im f r cn _ _ (st2, node2) hfold).2
    rw [← Except.ok.inj h]
    exact hcb

theorem processClassDefs_config_invariant (im : List (String × String))
    (f : String → FinderData) (r : String → Node → Node)
    (evs : List ClassEvent) (st st' : ConvState)
    (hst : st.configBody = none ∨ ∃ x, st.configBody = some [x])
    (h : processClassDefs im f r evs st = .ok st') :
    st'.configBody = none ∨ ∃ x, st'.configBody = some [x] := by
  induction evs generalizing st with
  | nil =>
    unfold processClassDefs at h
    rw [← Except.ok.inj h]
    exact hst
  | cons ev rest ih =>
    unfold processClassDefs at h
    cases hcd : leaveClassDef im f r ev.className ev.rawBases ev.node st with
    | error e =>
      rw [hcd] at h
      simp at h
    | ok stM =>
      rw [hcd] at h
      dsimp only at h
      apply ih stM _ h
      cases hcfg : strContains ev.className "Config" with
      | true =>
        rcases leaveClassDef_config_replaces im f r ev.className ev.rawBases
          ev.node st stM hcfg hcd with ⟨n', hn'⟩
        exact Or.inr ⟨n', hn'⟩
      | false =>
        rw [leaveClassDef_nonconfig_preserves im f r ev.className ev.rawBases
          ev.node st stM hcfg hcd]
        exact hst

/-- Claim C1: when `leave_ClassDef` pulls a dependency `dep` of class `cn`
into `new_body` (a name with a node in the renamed base module's
`global_nodes`), `dep` ends up recorded at an insertion index strictly below
the class's own index, and in the module body emitted by `leave_Module`
(entries sorted by ascending `insert_idx`) the dependency's node appears
strictly before the class's node.  The hypothesis `hinv` is the invariant
maintained by every `new_body` write of the transformer: no recorded index
exceeds the current `global_scope_index`. -/
theorem c1_dependency_emitted_before_class (im : List (String × String))
    (f : String → FinderData) (r : String → Node → Node) (cn : String)
    (rawBases : List String) (classNode : Node) (st st' : ConvState)
    (b sf dep : String) (n : Node)
    (hrun : leaveClassDef im f r cn rawBases classNode st = .ok st')
    (hinv : ∀ p ∈ st.newBody, p.2.insertIdx ≤ st.globalScopeIndex)
    (hbase : b ∈ rawBases) (hsf : im.lookup b = some sf)
    (hdep : dep ∈ (f sf).depsFor cn) (hgn : (f sf).globalNodes dep = some n)
    (hne : dep ≠ cn) (hcfg : strContains cn "Config" = false) :
    ∃ ed ec : BodyEntry,
      st'.newBody.lookup dep = some ed
      ∧ st'.newBody.lookup cn = some ec
      ∧ ed.insertIdx < ec.insertIdx
      ∧ ∀ importNodes : List Node, ∃ i j : ℕ, i < j
          ∧ (leaveModule importNodes st')[i]? = some ed.node
          ∧ (leaveModule importNodes st')[j]? = some ec.node := by
  unfold leaveClassDef at hrun
  dsimp only at hrun
  cases hfold : foldSupers im f r cn
      (rawBases.filter (fun x => (im.lookup x).isSome))
      ({ st with globalScopeIndex := st.globalScopeIndex + 100 }, classNode) with
  | error e =>
    rw [hfold] at hrun
    simp at hrun
  | ok acc1 =>
    obtain ⟨st2, node2⟩ := acc1
    rw [hfold] at hrun
    dsimp only at hrun
    rw [hcfg] at hrun
    simp only [Bool.false_eq_true, if_false] at hrun
    have hst' : st' = { st2 with
        newBody := pyInsert st2.newBody cn ⟨st2.globalScopeIndex, node2⟩ } :=
      (Except.ok.inj hrun).symm
    have hb1 : ∀ p ∈ st.newBody, p.2.insertIdx < st.globalScopeIndex + 100 :=
      fun p hp => lt_of_le_of_lt (hinv p hp) (by omega)
    have hbf : b ∈ rawBases.filter (fun x => (im.lookup x).isSome) :=
      List.mem_filter.mpr ⟨hbase, by rw [hsf]; rfl⟩
    obtain ⟨e, he, heG⟩ := foldSupers_present im f r cn _ _ (st2, node2) b sf
      dep n (st.globalScopeIndex + 100) hfold rfl hb1 hbf hsf hdep hgn
    have hgsi : st2.globalScopeIndex = st.globalScopeIndex + 100 :=
      (foldSupers_preserve im f r cn _ _ (st2, node2) hfold).1
    have hlkdep : st'.newBody.lookup dep = some e := by
      rw [hst']
      exact (pyInsert_lookup_ne st2.newBody cn dep _ hne).trans he
    have hlkcn : st'.newBody.lookup cn
        = some ⟨st2.globalScopeIndex, node2⟩ := by
      rw [hst']
      exact pyInsert_lookup_self st2.newBody cn _
    have hlt : e.insertIdx < st2.globalScopeIndex := by
      rw [hgsi]
      exact heG
    refine ⟨e, ⟨st2.globalScopeIndex, node2⟩, hlkdep, hlkcn, hlt, ?_⟩
    intro importNodes
    have hmemdep : (dep, e) ∈ st'.newBody := mem_of_lookup_eq hlkdep
    have hmemcn : (cn, (⟨st2.globalScopeIndex, node2⟩ : BodyEntry))
        ∈ st'.newBody := mem_of_lookup_eq hlkcn
    obtain ⟨i0, j0, hij, hgi, hgj⟩ := sortBody_strict_positions st'.newBody
      (dep, e) (cn, ⟨st2.globalScopeIndex, node2⟩) hmemdep hmemcn hlt
    have hlen : 0 < st'.newBody.length :=
      List.length_pos.mpr (List.ne_nil_of_mem hmemcn)
    refine ⟨importNodes.length + i0.1, importNodes.length + j0.1,
      by omega, ?_, ?_⟩
    · unfold leaveModule
      rw [if_pos hlen, List.getElem?_append_right (by omega)]
      have hidx : importNodes.length + i0.1 - importNodes.length = i0.1 := by
        omega
      rw [hidx, List.getElem?_map, List.getElem?_eq_getElem i0.isLt]
      have : (sortBody st'.newBody)[i0.1] = (dep, e) := by
        rw [← hgi]
        simp [List.get_eq_getElem]
      rw [this]
      rfl
    · unfold leaveModule
      rw [if_pos hlen, List.getElem?_append_right (by omega)]
      have hidx : importNodes.length + j0.1 - importNodes.length = j0.1 := by
        omega
      rw [hidx, List.getElem?_map, List.getElem?_eq_getElem j0.isLt]
      have : (sortBody st'.newBody)[j0.1]
          = (cn, (⟨st2.globalScopeIndex, node2⟩ : BodyEntry)) := by
        rw [← hgj]
        simp [List.get_eq_getElem]
      rw [this]
      rfl

/-- Witness for C5 at a concrete input: two classes, the second inheriting
from the first. -/
theorem c5_dependency_union_witness :
    [("B", ["A"]), ("C", ["B"])]
        = ([("B", ["A"])] : List (String × List String)) ++ ("C", ["B"]) :: []
    ∧ ("B" : String) ∈ ["B"]
    ∧ processClasses (fun _ => ∅) [("B", ["A"])] "B"
        ⊆ processClasses (fun _ => ∅) [("B", ["A"]), ("C", ["B"])] "C" := by
  refine ⟨by decide, by decide, ?_⟩
  exact (c5_dependency_union_and_monotonicity (fun _ => ∅) "x" "y"
    [("B", ["A"]), ("C", ["B"])] [("B", ["A"])] [] "C" ["B"] "B"
    (by decide) (by decide)).2.2.2

/-- Witness for C1 at a concrete input: a diff class `GemmaModel` inheriting
from an imported `LlamaModel` whose renamed analysis reports the dependency
`GemmaRMSNorm` (node 3). -/
theorem c1_dependency_witness :
    leaveClassDef
        [("LlamaModel", "transformers.models.llama.modeling_llama")]
        (fun _ => ⟨fun c => if c = "GemmaModel" then ["GemmaRMSNorm"] else [],
          fun d => if d = "GemmaRMSNorm" then some 3 else none⟩)
        (fun _ n => n) "GemmaModel" ["LlamaModel"] 9 ⟨[], [], 0, none⟩
      = .ok ⟨[("GemmaRMSNorm", ⟨99, 3⟩), ("GemmaModel", ⟨100, 9⟩)],
          ["GemmaRMSNorm"], 100, none⟩
    ∧ ∃ ed ec : BodyEntry,
        (⟨[("GemmaRMSNorm", ⟨99, 3⟩), ("GemmaModel", ⟨100, 9⟩)],
            ["GemmaRMSNorm"], 100, none⟩ : ConvState).newBody.lookup
          "GemmaRMSNorm" = some ed
        ∧ (⟨[("GemmaRMSNorm", ⟨99, 3⟩), ("GemmaModel", ⟨100, 9⟩)],
            ["GemmaRMSNorm"], 100, none⟩ : ConvState).newBody.lookup
          "GemmaModel" = some ec
        ∧ ed.insertIdx < ec.insertIdx
        ∧ ∀ importNodes : List Node, ∃ i j : ℕ, i < j
            ∧ (leaveModule importNodes
                ⟨[("GemmaRMSNorm", ⟨99, 3⟩), ("GemmaModel", ⟨100, 9⟩)],
                  ["GemmaRMSNorm"], 100, none⟩)[i]? = some ed.node
            ∧ (leaveModule importNodes
                ⟨[("GemmaRMSNorm", ⟨99, 3⟩), ("GemmaModel", ⟨100, 9⟩)],
                  ["GemmaRMSNorm"], 100, none⟩)[j]? = some ec.node := by
  refine ⟨by rfl, ?_⟩
  exact c1_dependency_emitted_before_class
    [("LlamaModel", "transformers.models.llama.modeling_llama")]
    (fun _ => ⟨fun c => if c = "GemmaModel" then ["GemmaRMSNorm"] else [],
      fun d => if d = "GemmaRMSNorm" then some 3 else none⟩)
    (fun _ n => n) "GemmaModel" ["LlamaModel"] 9 ⟨[], [], 0, none⟩
    ⟨[("GemmaRMSNorm", ⟨99, 3⟩), ("GemmaModel", ⟨100, 9⟩)],
      ["GemmaRMSNorm"], 100, none⟩
    "LlamaModel" "transformers.models.llama.modeling_llama" "GemmaRMSNorm" 3
    (by rfl) (by simp) (by decide) (by rfl) (by decide) (by rfl)
    (by decide) (by decide)

/-- Claim C6 (evidence of dead code): a diff class inheriting from a base
name never imported does NOT raise the `ImportError` of line 442 — the base
list is pre-filtered by membership in `imported_mapping` (line 438), so the
guard of line 441 can never fire; the unresolved base is silently skipped
and the class is stored normally.  First conjunct: concrete evaluation at
the failing input (class `MyModel(UnknownBase)` with nothing imported);
second conjunct: `leave_ClassDef` never returns an `ImportError` for any
input whatsoever. -/
theorem c6_unresolved_base_silently_skipped :
    leaveClassDef [] (fun _ => ⟨fun _ => [], fun _ => none⟩) (fun _ n => n)
        "MyModel" ["UnknownBase"] 7 ⟨[], [], 0, none⟩
      = .ok ⟨[("MyModel", ⟨100, 7⟩)], [], 100, none⟩
    ∧ ∀ (im : List (String × String)) (f : String → FinderData)
        (r : String → Node → Node) (cn : String) (rawBases : List String)
        (node : Node) (st : ConvState) (msg : String),
        leaveClassDef im f r cn rawBases node st ≠ .error (.importError msg) := by
  constructor
  · rfl
  · intro im f r cn rawBases node st msg
    unfold leaveClassDef
    dsimp only
    cases hfold : foldSupers im f r cn
        (rawBases.filter (fun x => (im.lookup x).isSome))
        ({ st with globalScopeIndex := st.globalScopeIndex + 100 }, node) with
    | error e =>
      intro hcon
      have he : e = .importError msg := Except.error.inj hcon
      subst he
      exact foldSupers_not_importError im f r cn _ _ msg
        (fun x hx => (List.mem_filter.mp hx).2) hfold
    | ok acc1 =>
      obtain ⟨st2, node2⟩ := acc1
      dsimp only
      intro hcon
      exact Except.noConfusion hcon

/-- Claim C10: the collected `config_body` holds at most one class
definition.  (1) A class whose name contains "Config" REPLACES `config_body`
by the singleton of its node, whatever was stored before; (2) any other
class leaves `config_body` untouched; (3) hence over any sequence of class
definitions `config_body` is absent or a singleton; (4) the configuration
output is that singleton prefixed by the shared import block. -/
theorem c10_config_body_singleton :
    (∀ (im : List (String × String)) (f : String → FinderData)
        (r : String → Node → Node) (cn : String) (rawBases : List String)
        (node : Node) (st st' : ConvState),
        strContains cn "Config" = true →
        leaveClassDef im f r cn rawBases node st = .ok st' →
        ∃ n', st'.configBody = some [n'])
    ∧ (∀ (im : List (String × String)) (f : String → FinderData)
        (r : String → Node → Node) (cn : String) (rawBases : List String)
        (node : Node) (st st' : ConvState),
        strContains cn "Config" = false →
        leaveClassDef im f r cn rawBases node st = .ok st' →
        st'.configBody = st.configBody)
    ∧ (∀ (im : List (String × String)) (f : String → FinderData)
        (r : String → Node → Node) (evs : List ClassEvent)
        (st st' : ConvState),
        (st.configBody = none ∨ ∃ x, st.configBody = some [x]) →
        processClassDefs im f r evs st = .ok st' →
        (st'.configBody = none ∨ ∃ x, st'.configBody = some [x]))
    ∧ (∀ (importNodes : List Node) (st : ConvState) (body : List Node),
        st.configBody = some body →
        finalizeConfigBody importNodes st = some (importNodes ++ body)) := by
  refine ⟨leaveClassDef_config_replaces, leaveClassDef_nonconfig_preserves,
    processClassDefs_config_invariant, ?_⟩
  intro importNodes st body hcb
  unfold finalizeConfigBody
  rw [hcb]

/-- Witness for C10 at a concrete input: a single `FooConfig` class replaces
`config_body` by its singleton. -/
theorem c10_config_body_witness :
    strContains "FooConfig" "Config" = true
    ∧ leaveClassDef [] (fun _ => ⟨fun _ => [], fun _ => none⟩) (fun _ n => n)
        "FooConfig" [] 5 ⟨[], [], 0, none⟩
      = .ok ⟨[], [], 100, some [5]⟩
    ∧ ∃ n', (⟨[], [], 100, some [5]⟩ : ConvState).configBody = some [n'] := by
  refine ⟨by decide, by rfl, ?_⟩
  exact (c10_config_body_singleton).1 [] (fun _ => ⟨fun _ => [], fun _ => none⟩)
    (fun _ n => n) "FooConfig" [] 5 ⟨[], [], 0, none⟩ ⟨[], [], 100, some [5]⟩
    (by decide) (by rfl)

theorem underscoreGroup_none (s : List Char) (h : '_' ∉ s) :
    underscoreGroup s = none := by
  induction s with
  | nil => rfl
  | cons c t ih =>
    unfold underscoreGroup
    have hc : ¬ c = '_' := fun he => h (he ▸ List.mem_cons_self c t)
    rw [if_neg hc]
    exact ih (fun hm => h (List.mem_cons_of_mem c hm))

theorem underscoreGroup_split (pre post : List Char) (h : '_' ∉ pre) :
    underscoreGroup (pre ++ '_' :: post)
      = some (post.takeWhile (fun c => !c.isWhitespace)) := by
  induction pre with
  | nil =>
    rw [List.nil_append]
    unfold underscoreGroup
    rw [if_pos rfl]
  | cons c t ih =>
    rw [List.cons_append]
    unfold underscoreGroup
    have hc : ¬ c = '_' := fun he => h (he ▸ List.mem_cons_self c t)
    rw [if_neg hc]
    exact ih (fun hm => h (List.mem_cons_of_mem c hm))

/-- Counterexample to claim C8: for the import path
`transformers.models.layout_xlm.modeling_layout_xlm` the code's
`re.search(r"_(\S*)", super_file_name)` matches at the FIRST underscore of
the WHOLE dotted path (inside the `layout_xlm` directory segment), yielding
`xlm.modeling_layout_xlm`, not the `layout_xlm` that the claim's
trailing-segment rule would give. -/
theorem c8_counterexample :
    getModelName "transformers.models.layout_xlm.modeling_layout_xlm"
      = .ok "xlm.modeling_layout_xlm"
    ∧ claimTrailingModelName "transformers.models.layout_xlm.modeling_layout_xlm"
      = some "layout_xlm"
    ∧ ("xlm.modeling_layout_xlm" : String) ≠ "layout_xlm" := by
  refine ⟨by rfl, by rfl, by decide⟩

/-- Claim C8 amended: the old model name equals the text following the FIRST
underscore of the whole dotted import path (the regex `_(\S*)` is applied to
`super_file_name` in its entirety, not to its trailing segment), and the
`ValueError` citing the path is raised exactly when the whole path contains
no underscore. -/
theorem c8_model_name_from_full_path (s : String) :
    (∀ pre post : List Char, s.toList = pre ++ '_' :: post → '_' ∉ pre →
      getModelName s
        = .ok (String.mk (post.takeWhile (fun c => !c.isWhitespace))))
    ∧ ('_' ∉ s.toList →
      getModelName s = .error (.valueError
        ("Tried parsing the name of the imported package from " ++ s
          ++ ", could not extract the model name"))) := by
  constructor
  · intro pre post hsplit hpre
    unfold getModelName
    rw [hsplit, underscoreGroup_split pre post hpre]
  · intro hnone
    unfold getModelName
    rw [underscoreGroup_none s.toList hnone]

/-- Witness for the amended C8: a path with no underscore raises the
`ValueError` citing the path. -/
theorem c8_model_name_witness :
    ('_' ∉ ("transformers.models.llama" : String).toList)
    ∧ getModelName "transformers.models.llama" = .error (.valueError
        ("Tried parsing the name of the imported package from "
          ++ "transformers.models.llama"
          ++ ", could not extract the model name")) := by
  refine ⟨by decide, ?_⟩
  exact (c8_model_name_from_full_path "transformers.models.llama").2 (by decide)

/-- Counterexample to claim C9: with an empty formatted modeling text and a
collected `config_body`, `convert_file` still writes the configuration file
(the config write at lines 530-535 is not guarded by the emptiness check of
line 526), so "no output file at all" is false. -/
theorem c9_counterexample :
    (pyStrip ((fun (s : String) (_ : Bool) => s)
        ((fun (s : String) (_ : Bool) => s) "" true) false).toList).length = 0
    ∧ convertFile "diff_my_model.py" (fun s _ => s)
        (.ok ⟨"", some "X"⟩)
      = .ok [("configuration_my_model.py", autoGeneratedMessage ++ "X")] := by
  exact ⟨by decide, by rfl⟩

/-- Claim C9 amended: the modeling file is written iff the formatted
modeling text is non-empty after the two formatter passes, and the
configuration file is written iff a `config_body` was collected — the
configuration write is independent of the modeling text's emptiness. -/
theorem c9_write_conditions (diffFile : String)
    (runRuff : String → Bool → String) (t : TransformOut)
    (hne : strReplace diffFile "diff_" "modeling_"
        ≠ strReplace diffFile "diff_" "configuration_") :
    ∃ writes, convertFile diffFile runRuff (.ok t) = .ok writes
      ∧ ((∃ c, (strReplace diffFile "diff_" "modeling_", c) ∈ writes)
          ↔ 0 < (pyStrip (runRuff (runRuff t.code true) false).toList).length)
      ∧ ((∃ c, (strReplace diffFile "diff_" "configuration_", c) ∈ writes)
          ↔ t.configCode.isSome = true) := by
  unfold convertFile
  dsimp only
  by_cases hf : 0 < (pyStrip (runRuff (runRuff t.code true) false).toList).length
  · rw [if_pos hf]
    cases hcfg : t.configCode with
    | some cfg =>
      refine ⟨_, rfl, ?_, ?_⟩
      · constructor
        · intro _
          exact hf
        · intro _
          exact ⟨autoGeneratedMessage ++ runRuff (runRuff t.code true) false,
            by simp⟩
      · constructor
        · intro _
          rfl
        · intro _
          exact ⟨autoGeneratedMessage ++ runRuff (runRuff cfg true) false,
            by simp⟩
    | none =>
      refine ⟨_, rfl, ?_, ?_⟩
      · constructor
        · intro _
          exact hf
        · intro _
          exact ⟨autoGeneratedMessage ++ runRuff (runRuff t.code true) false,
            by simp⟩
      · constructor
        · rintro ⟨c, hc⟩
          simp at hc
          exact absurd hc.1 (Ne.symm hne)
        · intro hsome
          simp at hsome
  · rw [if_neg hf]
    cases hcfg : t.configCode with
    | some cfg =>
      refine ⟨_, rfl, ?_, ?_⟩
      · constructor
        · rintro ⟨c, hc⟩
          simp at hc
          exact absurd hc.1 hne
        · intro h0
          exact absurd h0 hf
      · constructor
        · intro _
          rfl
        · intro _
          exact ⟨autoGeneratedMessage ++ runRuff (runRuff cfg true) false,
            by simp⟩
    | none =>
      refine ⟨_, rfl, ?_, ?_⟩
      · constructor
        · rintro ⟨c, hc⟩
          simp at hc
        · intro h0
          exact absurd h0 hf
      · constructor
        · rintro ⟨c, hc⟩
          simp at hc
        · intro hsome
          simp at hsome

/-- Witness for the amended C9 at a concrete input: non-empty code, no
config body — exactly the modeling file is written. -/
theorem c9_write_witness :
    (strReplace "diff_m.py" "diff_" "modeling_"
        ≠ strReplace "diff_m.py" "diff_" "configuration_")
    ∧ ∃ writes, convertFile "diff_m.py" (fun s _ => s)
        (.ok ⟨"class M", none⟩) = .ok writes
      ∧ ((∃ c, (strReplace "diff_m.py" "diff_" "modeling_", c) ∈ writes)
          ↔ 0 < (pyStrip ((fun (s : String) (_ : Bool) => s)
              ((fun (s : String) (_ : Bool) => s) "class M" true)
              false).toList).length)
      ∧ ((∃ c, (strReplace "diff_m.py" "diff_" "configuration_", c) ∈ writes)
          ↔ (TransformOut.mk "class M" none).configCode.isSome = true) :=
  ⟨by decide, c9_write_conditions "diff_m.py" (fun s _ => s)
    ⟨"class M", none⟩ (by decide)⟩

theorem findAnchorSuffix_of_isPref (s : List Char)
    (h : anchorLit.isPrefixOf s = true) (hne : s ≠ []) :
    findAnchorSuffix s = some (s.drop anchorLit.length) := by
  cases s with
  | nil => exact absurd rfl hne
  | cons c t =>
    unfold findAnchorSuffix
    rw [if_pos h]

theorem findAnchorSuffix_append (r : List Char) :
    findAnchorSuffix (anchorLit ++ r) = some r := by
  rw [findAnchorSuffix_of_isPref (anchorLit ++ r)
    (by rw [List.isPrefixOf_iff_prefix]; exact List.prefix_append anchorLit r)
    (by simp [anchorLit]), List.drop_left]

theorem findLastKeyword_of_no_dot (s : List Char) (h : ∀ c ∈ s, c ≠ '.') :
    findLastKeyword s = none := by
  induction s with
  | nil => rfl
  | cons c t ih =>
    unfold findLastKeyword
    rw [ih (fun x hx => h x (List.mem_cons_of_mem c hx))]
    rw [if_neg (h c (List.mem_cons_self c t))]

theorem findLastKeyword_modeling (x y : List Char)
    (hx : ∀ c ∈ x, c ≠ '.') (hy : ∀ c ∈ y, c ≠ '.') :
    findLastKeyword (x ++ '.' :: ("modeling_".toList ++ y))
      = some "modeling" := by
  induction x with
  | nil =>
    rw [List.nil_append]
    unfold findLastKeyword
    have hnodot : ∀ c ∈ "modeling_".toList ++ y, c ≠ '.' := by
      intro c hc
      rcases List.mem_append.mp hc with h | h
      · fin_cases h <;> decide
      · exact hy c h
    rw [findLastKeyword_of_no_dot _ hnodot]
    rw [if_pos rfl]
    unfold keywordAt
    rw [if_pos (by
      rw [List.isPrefixOf_iff_prefix]
      exact List.prefix_append _ y)]
  | cons c t ih =>
    rw [List.cons_append]
    unfold findLastKeyword
    rw [ih (fun d hd => hx d (List.mem_cons_of_mem c hd))]

theorem importPathGroup_modeling (x y : String)
    (hx : ∀ c ∈ x.toList, c ≠ '.') (hy : ∀ c ∈ y.toList, c ≠ '.') :
    importPathGroup ("transformers.models." ++ x ++ ".modeling_" ++ y)
      = some "modeling" := by
  unfold importPathGroup
  have hdata : ("transformers.models." ++ x ++ ".modeling_" ++ y).toList
      = anchorLit ++ (x.toList ++ '.' :: ("modeling_".toList ++ y.toList)) := by
    show ("transformers.models." ++ x ++ ".modeling_" ++ y).data
      = anchorLit ++ (x.data ++ '.' :: ("modeling_".data ++ y.data))
    rw [String.data_append, String.data_append, String.data_append]
    simp [anchorLit]
  rw [hdata, findAnchorSuffix_append]
  dsimp only
  rw [findLastKeyword_modeling x.toList y.toList hx hy]

theorem visitImportFromNames_config_error (path : String)
    (names : List String) (mapping : List (String × String))
    (hgrp : importPathGroup path = some "modeling")
    (hc : ∃ nm ∈ names, strContains nm "Config" = true) :
    ∃ nm, strContains nm "Config" = true
      ∧ visitImportFromNames path names mapping
        = .error (.valueError ("You are importing " ++ nm
            ++ " from the modeling file. Import from the `configuration_xxxx.py` file instead")) := by
  induction names generalizing mapping with
  | nil =>
    rcases hc with ⟨nm, hmem, _⟩
    cases hmem
  | cons hd rest ih =>
    unfold visitImportFromNames
    rw [hgrp]
    dsimp only
    by_cases hcfg : strContains hd "Config" = true
    · rw [if_pos ⟨rfl, hcfg⟩]
      exact ⟨hd, hcfg, rfl⟩
    · rw [if_neg (fun hand => hcfg hand.2)]
      apply ih
      rcases hc with ⟨nm, hmem, hnm⟩
      rcases List.mem_cons.mp hmem with hEq | hmem'
      · subst hEq
        exact absurd hnm hcfg
      · exact ⟨nm, hmem', hnm⟩

/-- Claim C3: for an import-from statement whose dotted path has the shape
`transformers.models.<x>.modeling_<y>` (with dot-free `x` and `y`) and whose
imported names include one containing "Config", `visit_ImportFrom` raises a
`ValueError` naming the offending symbol (the first such name), and
`convert_file` propagates the exception, producing no writes. -/
theorem c3_config_import_from_modeling_raises (x y : String)
    (names : List String) (mapping : List (String × String))
    (hx : ∀ c ∈ x.toList, c ≠ '.') (hy : ∀ c ∈ y.toList, c ≠ '.')
    (hc : ∃ nm ∈ names, strContains nm "Config" = true) :
    ∃ nm, strContains nm "Config" = true
      ∧ visitImportFrom ("transformers.models." ++ x ++ ".modeling_" ++ y)
          true names mapping
        = .error (.valueError ("You are importing " ++ nm
            ++ " from the modeling file. Import from the `configuration_xxxx.py` file instead"))
      ∧ ∀ (diffFile : String) (runRuff : String → Bool → String),
          convertFile diffFile runRuff
            (.error (.valueError ("You are importing " ++ nm
              ++ " from the modeling file. Import from the `configuration_xxxx.py` file instead")))
          = .error (.valueError ("You are importing " ++ nm
              ++ " from the modeling file. Import from the `configuration_xxxx.py` file instead")) := by
  rcases visitImportFromNames_config_error
    ("transformers.models." ++ x ++ ".modeling_" ++ y) names mapping
    (importPathGroup_modeling x y hx hy) hc with ⟨nm, hnm, herr⟩
  refine ⟨nm, hnm, ?_, ?_⟩
  · unfold visitImportFrom
    rw [if_pos rfl]
    exact herr
  · intro diffFile runRuff
    rfl

/-- Witness for C3: importing `LlamaConfig` from
`transformers.models.llama.modeling_llama` raises before any output. -/
theorem c3_config_import_witness :
    (∀ c ∈ ("llama" : String).toList, c ≠ '.')
    ∧ (∃ nm ∈ ["LlamaConfig"], strContains nm "Config" = true)
    ∧ ∃ nm, strContains nm "Config" = true
      ∧ visitImportFrom
          ("transformers.models." ++ "llama" ++ ".modeling_" ++ "llama")
          true ["LlamaConfig"] []
        = .error (.valueError ("You are importing " ++ nm
            ++ " from the modeling file. Import from the `configuration_xxxx.py` file instead"))
      ∧ ∀ (diffFile : String) (runRuff : String → Bool → String),
          convertFile diffFile runRuff
            (.error (.valueError ("You are importing " ++ nm
              ++ " from the modeling file. Import from the `configuration_xxxx.py` file instead")))
          = .error (.valueError ("You are importing " ++ nm
              ++ " from the modeling file. Import from the `configuration_xxxx.py` file instead")) := by
  refine ⟨by decide, ⟨"LlamaConfig", by decide, by decide⟩, ?_⟩
  exact c3_config_import_from_modeling_raises "llama" "llama" ["LlamaConfig"]
    [] (by decide) (by decide) ⟨"LlamaConfig", by decide, by decide⟩

/-- Claim C2: for a base method with body `[s1, s2, s3]` and an override of
shape `[s1, return super().m()]` (statements denoting distinct source
texts), the resolver splices the parent body at the super-call and elides
the duplicated `s1`, so the merged method body is exactly `[s1, s2, s3]`.
The hypotheses spell out that `s1`, `s2`, `s3` and the super-call statement
are pairwise distinct statements: no two share their stripped source text,
`s1` is itself not a super-call of `m`, and `s2`, `s3` are not docstrings
duplicating an `s1` docstring. -/
theorem c2_super_splice_dedup (m : String) (P P' : PyParams)
    (s1 s2 s3 sup : Stmt)
    (hsup : sup.kind = .superCall m) (h1 : s1.kind ≠ .superCall m)
    (h21 : s2.code ≠ s1.code) (h2s : s2.code ≠ sup.code)
    (h31 : s3.code ≠ s1.code) (h3s : s3.code ≠ sup.code)
    (hd2 : ¬(s2.kind = .docstring ∧ s1.kind = .docstring))
    (hd3 : ¬(s3.kind = .docstring ∧ s1.kind = .docstring)) :
    replaceCallToSuper [(m, ⟨P, [s1, s2, s3]⟩)] [(m, ⟨P', [s1, sup]⟩)]
      = [(m, ⟨mergeParams P P', [s1, s2, s3]⟩)] := by
  unfold replaceCallToSuper
  have hlk : ([(m, (⟨P', [s1, sup]⟩ : PyMethod))]).lookup m
      = some ⟨P', [s1, sup]⟩ := by
    rw [List.lookup_cons]
    rw [beq_self_eq_true]
  rw [List.map_cons, List.map_nil, hlk]
  refine congrArg (fun b => [(m, PyMethod.mk (mergeParams P P') b)]) ?_
  unfold replaceSuperCalls
  rw [List.map_cons, List.map_cons, List.map_nil]
  rw [if_neg h1, if_pos hsup]
  have hbody : updateBody [s1, s2, s3] [s1, sup]
      (bodyHasDocstring [s1, sup]) = [s2, s3] := by
    unfold updateBody
    rw [List.map_cons, List.map_cons, List.map_nil]
    rw [List.filter_cons, List.filter_cons, List.filter_cons,
      List.filter_nil]
    have hc1 : (if s1.code ∈ [s1.code, sup.code] then false
        else if s1.kind = StmtKind.docstring
          ∧ bodyHasDocstring [s1, sup] = true then false
        else true) = false := by
      rw [if_pos (List.mem_cons_self _ _)]
    have hdoc : bodyHasDocstring [s1, sup]
        = (if s1.kind = StmtKind.docstring then true else false) := rfl
    have hc2 : (if s2.code ∈ [s1.code, sup.code] then false
        else if s2.kind = StmtKind.docstring
          ∧ bodyHasDocstring [s1, sup] = true then false
        else true) = true := by
      rw [if_neg (by
        intro hmem
        rcases List.mem_cons.mp hmem with h | h
        · exact h21 h
        · rcases List.mem_cons.mp h with h' | h'
          · exact h2s h'
          · cases h')]
      rw [if_neg (by
        rintro ⟨hk2, hdocTrue⟩
        rw [hdoc] at hdocTrue
        by_cases hk1 : s1.kind = StmtKind.docstring
        · exact hd2 ⟨hk2, hk1⟩
        · rw [if_neg hk1] at hdocTrue
          cases hdocTrue)]
    have hc3 : (if s3.code ∈ [s1.code, sup.code] then false
        else if s3.kind = StmtKind.docstring
          ∧ bodyHasDocstring [s1, sup] = true then false
        else true) = true := by
      rw [if_neg (by
        intro hmem
        rcases List.mem_cons.mp hmem with h | h
        · exact h31 h
        · rcases List.mem_cons.mp h with h' | h'
          · exact h3s h'
          · cases h')]
      rw [if_neg (by
        rintro ⟨hk3, hdocTrue⟩
        rw [hdoc] at hdocTrue
        by_cases hk1 : s1.kind = StmtKind.docstring
        · exact hd3 ⟨hk3, hk1⟩
        · rw [if_neg hk1] at hdocTrue
          cases hdocTrue)]
    rw [hc1, hc2, hc3]
    rfl
  rw [hbody]
  rfl

/-- Witness for C2 at concrete statements. -/
theorem c2_super_splice_witness :
    replaceCallToSuper
        [("forward", ⟨⟨[⟨"self", 0⟩], none⟩,
          [⟨"x = self.embed(x)", .plain⟩, ⟨"x = x + 1", .plain⟩,
            ⟨"return x", .plain⟩]⟩)]
        [("forward", ⟨⟨[⟨"self", 1⟩], none⟩,
          [⟨"x = self.embed(x)", .plain⟩,
            ⟨"return super().forward(x)", .superCall "forward"⟩]⟩)]
      = [("forward", ⟨mergeParams ⟨[⟨"self", 0⟩], none⟩ ⟨[⟨"self", 1⟩], none⟩,
          [⟨"x = self.embed(x)", .plain⟩, ⟨"x = x + 1", .plain⟩,
            ⟨"return x", .plain⟩]⟩)] := by
  exact c2_super_splice_dedup "forward" ⟨[⟨"self", 0⟩], none⟩
    ⟨[⟨"self", 1⟩], none⟩
    ⟨"x = self.embed(x)", .plain⟩ ⟨"x = x + 1", .plain⟩
    ⟨"return x", .plain⟩ ⟨"return super().forward(x)", .superCall "forward"⟩
    (by decide) (by decide) (by decide) (by decide) (by decide) (by decide)
    (by decide) (by decide)

/-- Counterexample to claim C7: with a base method `(self, a, **kwargs)` and
an override `(self, b, **super_kwargs)`, the merged signature's
variadic-keyword slot is the BASE's `**kwargs` (line 338 uses
`func.params.star_kwarg`), not the override's original `**super_kwargs` as
the claim states. -/
theorem c7_counterexample :
    (mergeParams ⟨[⟨"self", 0⟩, ⟨"a", 1⟩], some ⟨"kwargs", 2⟩⟩
        ⟨[⟨"self", 3⟩, ⟨"b", 4⟩], some ⟨"super_kwargs", 5⟩⟩).starKwarg
      = some ⟨"kwargs", 2⟩
    ∧ (mergeParams ⟨[⟨"self", 0⟩, ⟨"a", 1⟩], some ⟨"kwargs", 2⟩⟩
        ⟨[⟨"self", 3⟩, ⟨"b", 4⟩], some ⟨"super_kwargs", 5⟩⟩).starKwarg
      ≠ some ⟨"super_kwargs", 5⟩ := by
  exact ⟨by decide, by decide⟩

theorem paramDictExtend_lookup_notmem (m : List (String × PyParam))
    (ps : List PyParam) (x : String)
    (hx : x ∉ ps.map (fun p => p.name)) :
    (paramDictExtend m ps).lookup x = m.lookup x := by
  induction ps generalizing m with
  | nil => rfl
  | cons p t ih =>
    unfold paramDictExtend at *
    rw [List.foldl_cons]
    have hxp : x ≠ p.name := by
      intro he
      exact hx (he ▸ List.mem_map_of_mem (fun q => q.name)
        (List.mem_cons_self p t))
    rw [ih (pyInsert m p.name p)
      (fun hm => hx (List.mem_cons_of_mem _ hm))]
    exact pyInsert_lookup_ne m p.name x p hxp

theorem paramDictExtend_lookup_mem (m : List (String × PyParam))
    (ps : List PyParam) (p : PyParam) (hp : p ∈ ps)
    (hnodup : (ps.map (fun q => q.name)).Nodup) :
    (paramDictExtend m ps).lookup p.name = some p := by
  induction ps generalizing m with
  | nil => cases hp
  | cons q t ih =>
    unfold paramDictExtend at *
    rw [List.foldl_cons]
    rcases List.mem_cons.mp hp with hEq | hmem
    · subst hEq
      have hnot : p.name ∉ t.map (fun q => q.name) :=
        (List.nodup_cons.mp hnodup).1
      rw [show t.foldl (fun acc r => pyInsert acc r.name r)
          (pyInsert m p.name p)
          = paramDictExtend (pyInsert m p.name p) t from rfl]
      rw [paramDictExtend_lookup_notmem _ t p.name hnot]
      exact pyInsert_lookup_self m p.name p
    · exact ih _ hmem (List.nodup_cons.mp hnodup).2

/-- Claim C7 amended: when the override declares `**super_kwargs`, the
merged parameter list is the base's parameters updated by name with the
override's parameters excluding the first (`self`) — override parameters
take precedence, base-only parameters are kept — and the variadic-keyword
slot of the merged signature is the BASE method's `star_kwarg` (not the
override's). -/
theorem c7_super_kwargs_merge (funcParams newParams : PyParams)
    (kw : PyParam)
    (hkw : newParams.starKwarg = some kw) (hname : kw.name = "super_kwargs")
    (hnodupF : (funcParams.params.map (fun p => p.name)).Nodup)
    (hnodupN : ((newParams.params.drop 1).map (fun p => p.name)).Nodup) :
    (mergeParams funcParams newParams).starKwarg = funcParams.starKwarg
    ∧ (mergeParams funcParams newParams).params
      = (paramDictExtend (paramDictExtend [] funcParams.params)
          (newParams.params.drop 1)).map Prod.snd
    ∧ (∀ p ∈ newParams.params.drop 1,
        (paramDictExtend (paramDictExtend [] funcParams.params)
          (newParams.params.drop 1)).lookup p.name = some p)
    ∧ (∀ q ∈ funcParams.params,
        q.name ∉ (newParams.params.drop 1).map (fun p => p.name) →
        (paramDictExtend (paramDictExtend [] funcParams.params)
          (newParams.params.drop 1)).lookup q.name = some q) := by
  have hmp : mergeParams funcParams newParams
      = { params := (paramDictExtend (paramDictExtend [] funcParams.params)
            (newParams.params.drop 1)).map Prod.snd,
          starKwarg := funcParams.starKwarg } := by
    unfold mergeParams
    rw [hkw]
    dsimp only
    rw [if_pos hname]
  refine ⟨by rw [hmp], by rw [hmp], ?_, ?_⟩
  · intro p hp
    exact paramDictExtend_lookup_mem _ _ p hp hnodupN
  · intro q hq hnot
    rw [paramDictExtend_lookup_notmem _ _ q.name hnot]
    exact paramDictExtend_lookup_mem _ _ q hq hnodupF

/-- Witness for the amended C7 at concrete parameters. -/
theorem c7_super_kwargs_witness :
    ((⟨[⟨"self", 3⟩, ⟨"b", 4⟩], some ⟨"super_kwargs", 5⟩⟩ : PyParams).starKwarg
      = some ⟨"super_kwargs", 5⟩)
    ∧ (mergeParams ⟨[⟨"self", 0⟩, ⟨"a", 1⟩], some ⟨"kwargs", 2⟩⟩
        ⟨[⟨"self", 3⟩, ⟨"b", 4⟩], some ⟨"super_kwargs", 5⟩⟩).starKwarg
      = (⟨[⟨"self", 0⟩, ⟨"a", 1⟩], some ⟨"kwargs", 2⟩⟩ : PyParams).starKwarg := by
  refine ⟨by decide, ?_⟩
  exact (c7_super_kwargs_merge ⟨[⟨"self", 0⟩, ⟨"a", 1⟩], some ⟨"kwargs", 2⟩⟩
    ⟨[⟨"self", 3⟩, ⟨"b", 4⟩], some ⟨"super_kwargs", 5⟩⟩ ⟨"super_kwargs", 5⟩
    (by decide) (by decide) (by decide) (by decide)).1

theorem ciStarts_refl_append (k r : List Char) :
    ciStarts k (k ++ r) = true := by
  induction k with
  | nil => rfl
  | cons a as ih =>
    rw [List.cons_append]
    unfold ciStarts
    rw [show ciEq a a = true from beq_self_eq_true a.toLower, ih]
    rfl

theorem ciStarts_le_length (k s : List Char) (h : ciStarts k s = true) :
    k.length ≤ s.length := by
  induction k generalizing s with
  | nil => simp
  | cons a as ih =>
    cases s with
    | nil => cases h
    | cons c cs =>
      unfold ciStarts at h
      rw [Bool.and_eq_true] at h
      simpa using ih cs h.2

theorem ciStarts_extend (k s r : List Char) (h : ciStarts k s = true) :
    ciStarts k (s ++ r) = true := by
  induction k generalizing s with
  | nil => rfl
  | cons a as ih =>
    cases s with
    | nil => cases h
    | cons c cs =>
      unfold ciStarts at h
      rw [Bool.and_eq_true] at h
      rw [List.cons_append]
      unfold ciStarts
      rw [h.1, ih cs h.2]
      rfl

theorem ciClash_not_starts (k occ r : List Char) (h : ciClash k occ = true) :
    ciStarts k (occ ++ r) = false := by
  induction k generalizing occ with
  | nil =>
    cases occ with
    | nil => cases h
    | cons b bs => cases h
  | cons a as ih =>
    cases occ with
    | nil => cases h
    | cons b bs =>
      unfold ciClash at h
      rw [List.cons_append]
      unfold ciStarts
      rw [Bool.or_eq_true] at h
      rcases h with h1 | h1
      · rw [show ciEq a b = false from by
          cases he : ciEq a b
          · rfl
          · rw [he] at h1
            cases h1]
        rfl
      · rw [ih bs h1]
        exact Bool.and_false _

theorem isEmpty_false_of_ne {l : List Char} (h : l ≠ []) :
    l.isEmpty = false := by
  cases l with
  | nil => exact absurd rfl h
  | cons c t => rfl

theorem pyInsert_absent {α : Type} (m : List (String × α)) (k : String)
    (v : α) (h : m.lookup k = none) : pyInsert m k v = m ++ [(k, v)] := by
  unfold pyInsert
  rw [h]
  rfl

theorem renamePatterns_eq (A B : String)
    (h1 : A ≠ pyUpper A) (h2 : A ≠ pascalize A)
    (h3 : pyUpper A ≠ pascalize A) :
    renamePatterns A B = [(A, B), (pyUpper A, pyUpper B),
      (pascalize A, pascalize B)] := by
  unfold renamePatterns pyDictOfStr
  rw [List.foldl_cons, List.foldl_cons, List.foldl_cons, List.foldl_nil]
  dsimp only
  rw [pyInsert_absent [] A B rfl, List.nil_append]
  rw [pyInsert_absent [(A, B)] (pyUpper A) (pyUpper B) (by
    simp [List.lookup_cons, beq_false_of_ne (Ne.symm h1)])]
  rw [pyInsert_absent ([(A, B)] ++ [(pyUpper A, pyUpper B)]) (pascalize A)
    (pascalize B) (by
    simp [List.lookup_cons, beq_false_of_ne (Ne.symm h2),
      beq_false_of_ne (Ne.symm h3)])]
  simp

theorem patternsGet_variant (A B : String)
    (h1 : A ≠ pyUpper A) (h2 : A ≠ pascalize A)
    (h3 : pyUpper A ≠ pascalize A) (v : CaseVariant) :
    patternsGet (renamePatterns A B) (variantOf A v) (pascalize B)
      = variantOf B v := by
  rw [renamePatterns_eq A B h1 h2 h3]
  cases v
  · unfold patternsGet variantOf
    rw [List.lookup_cons, beq_self_eq_true]
  · unfold patternsGet variantOf
    rw [List.lookup_cons, beq_false_of_ne (Ne.symm h1),
      List.lookup_cons, beq_self_eq_true]
  · unfold patternsGet variantOf
    rw [List.lookup_cons, beq_false_of_ne (Ne.symm h2),
      List.lookup_cons, beq_false_of_ne (Ne.symm h3),
      List.lookup_cons, beq_self_eq_true]

theorem ciSubAux_cons (keys : List (List Char)) (tbl : List Char → List Char)
    (f : Nat) (c : Char) (t : List Char) :
    ciSubAux keys tbl (f + 1) (c :: t)
      = match keys.find? (fun k => !k.isEmpty && ciStarts k (c :: t)) with
        | some k => tbl ((c :: t).take k.length)
            ++ ciSubAux keys tbl f ((c :: t).drop k.length)
        | none => c :: ciSubAux keys tbl f t := rfl

theorem find?_at_occurrence (A : String) (rest : List Char)
    (hAne : A.toList ≠ []) (hAPne : (pascalize A).toList ≠ [])
    (hAU : ciStarts A.toList (pyUpper A).toList = true
      ∧ A.toList.length = (pyUpper A).toList.length)
    (hAP : (ciStarts A.toList (pascalize A).toList = true
        ∧ A.toList.length = (pascalize A).toList.length)
      ∨ (ciClash A.toList (pascalize A).toList = true
        ∧ ciClash (pyUpper A).toList (pascalize A).toList = true))
    (v : CaseVariant) :
    ∃ k0, [A.toList, (pyUpper A).toList, (pascalize A).toList].find?
        (fun k => !k.isEmpty && ciStarts k ((variantOf A v).toList ++ rest))
        = some k0
      ∧ k0.length = (variantOf A v).toList.length := by
  cases v
  · unfold variantOf
    refine ⟨A.toList, ?_, rfl⟩
    apply List.find?_cons_of_pos
    rw [isEmpty_false_of_ne hAne, ciStarts_refl_append]
    rfl
  · unfold variantOf
    refine ⟨A.toList, ?_, hAU.2⟩
    apply List.find?_cons_of_pos
    rw [isEmpty_false_of_ne hAne, ciStarts_extend _ _ rest hAU.1]
    rfl
  · unfold variantOf
    rcases hAP with ⟨hm, hl⟩ | ⟨hc1, hc2⟩
    · refine ⟨A.toList, ?_, hl⟩
      apply List.find?_cons_of_pos
      rw [isEmpty_false_of_ne hAne, ciStarts_extend _ _ rest hm]
      rfl
    · refine ⟨(pascalize A).toList, ?_, rfl⟩
      rw [List.find?_cons_of_neg, List.find?_cons_of_neg]
      · apply List.find?_cons_of_pos
        rw [isEmpty_false_of_ne hAPne, ciStarts_refl_append]
        rfl
      · rw [ciClash_not_starts _ _ rest hc2]
        simp
      · rw [ciClash_not_starts _ _ rest hc1]
        simp

theorem ciSubAux_skip (keys : List (List Char)) (tbl : List Char → List Char)
    (lit rest : List Char) (hsafe : litSafe keys lit rest = true) :
    ∀ fuel, (lit ++ rest).length ≤ fuel →
      ciSubAux keys tbl fuel (lit ++ rest)
        = lit ++ ciSubAux keys tbl (fuel - lit.length) rest := by
  induction lit generalizing rest with
  | nil =>
    intro fuel _
    rw [List.nil_append, List.nil_append, List.length_nil, Nat.sub_zero]
  | cons c t ih =>
    intro fuel hfuel
    unfold litSafe at hsafe
    rw [Bool.and_eq_true] at hsafe
    cases fuel with
    | zero =>
      rw [List.cons_append, List.length_cons] at hfuel
      omega
    | succ f =>
      rw [List.cons_append, ciSubAux_cons]
      have hfind : keys.find?
          (fun k => !k.isEmpty && ciStarts k (c :: (t ++ rest))) = none := by
        apply List.find?_eq_none.mpr
        intro k hk
        have hks := List.all_eq_true.mp hsafe.1 k hk
        simp only [Bool.not_eq_true'] at hks
        simp [hks]
      rw [hfind]
      dsimp only
      have hfuel' : (t ++ rest).length ≤ f := by
        rw [List.cons_append, List.length_cons] at hfuel
        omega
      rw [ih rest hsafe.2 f hfuel', List.cons_append,
        List.length_cons, Nat.succ_sub_succ]

theorem ciSubAux_occstep (keys : List (List Char))
    (tbl : List Char → List Char) (fuel : Nat) (occ rest : List Char)
    (k0 : List Char)
    (hfind : keys.find? (fun k => !k.isEmpty && ciStarts k (occ ++ rest))
      = some k0)
    (hlen : k0.length = occ.length) (hne : occ ≠ [])
    (hfuel : (occ ++ rest).length ≤ fuel) :
    ciSubAux keys tbl fuel (occ ++ rest)
      = tbl occ ++ ciSubAux keys tbl (fuel - 1) rest
    ∧ rest.length ≤ fuel - 1 := by
  cases occ with
  | nil => exact absurd rfl hne
  | cons c ot =>
    cases fuel with
    | zero =>
      rw [List.cons_append, List.length_cons] at hfuel
      omega
    | succ f =>
      rw [List.cons_append] at hfind ⊢
      rw [ciSubAux_cons, hfind]
      dsimp only
      constructor
      · rw [hlen]
        rw [show (c :: (ot ++ rest)).take (c :: ot).length
            = ((c :: ot) ++ rest).take (c :: ot).length from by
          rw [List.cons_append]]
        rw [show (c :: (ot ++ rest)).drop (c :: ot).length
            = ((c :: ot) ++ rest).drop (c :: ot).length from by
          rw [List.cons_append]]
        rw [List.take_left, List.drop_left, Nat.succ_sub_one]
      · rw [List.length_append, List.length_cons] at hfuel
        omega

theorem scanRename (A B : String)
    (hAne : A.toList ≠ []) (hAPne : (pascalize A).toList ≠ [])
    (h1 : A ≠ pyUpper A) (h2 : A ≠ pascalize A)
    (h3 : pyUpper A ≠ pascalize A)
    (hAU : ciStarts A.toList (pyUpper A).toList = true
      ∧ A.toList.length = (pyUpper A).toList.length)
    (hAP : (ciStarts A.toList (pascalize A).toList = true
        ∧ A.toList.length = (pascalize A).toList.length)
      ∨ (ciClash A.toList (pascalize A).toList = true
        ∧ ciClash (pyUpper A).toList (pascalize A).toList = true))
    (toks : List RenameTok)
    (hsafe : decompSafe [A.toList, (pyUpper A).toList, (pascalize A).toList]
      A toks = true) :
    ∀ fuel, (renderToks A toks).length ≤ fuel →
      ciSubAux [A.toList, (pyUpper A).toList, (pascalize A).toList]
        (fun w => (patternsGet (renamePatterns A B) (String.mk w)
          (pascalize B)).toList)
        fuel (renderToks A toks)
      = renderToks B toks := by
  induction toks with
  | nil =>
    intro fuel _
    show ciSubAux _ _ fuel [] = []
    cases fuel <;> rfl
  | cons t ts ih =>
    intro fuel hfuel
    cases t with
    | lit s =>
      unfold decompSafe at hsafe
      rw [Bool.and_eq_true] at hsafe
      show ciSubAux _ _ fuel (s.toList ++ renderToks A ts)
        = s.toList ++ renderToks B ts
      rw [ciSubAux_skip _ _ s.toList (renderToks A ts) hsafe.1 fuel
        (by
          show (renderToks A (RenameTok.lit s :: ts)).length ≤ fuel
          exact hfuel)]
      rw [ih hsafe.2 (fuel - s.toList.length) (by
        unfold renderToks at hfuel
        rw [List.length_append] at hfuel
        omega)]
    | occ v =>
      unfold decompSafe at hsafe
      obtain ⟨k0, hfind, hlen⟩ := find?_at_occurrence A (renderToks A ts)
        hAne hAPne hAU hAP v
      have hocc_ne : (variantOf A v).toList ≠ [] := by
        cases v
        · exact hAne
        · intro hcon
          rw [show (variantOf A CaseVariant.upper) = pyUpper A from rfl]
            at hcon
          have := hAU.2
          rw [hcon] at this
          simp at this
          exact hAne (List.eq_nil_of_length_eq_zero this)
        · exact hAPne
      show ciSubAux _ _ fuel ((variantOf A v).toList ++ renderToks A ts)
        = (variantOf B v).toList ++ renderToks B ts
      obtain ⟨hstep, hrest⟩ := ciSubAux_occstep _ _ fuel
        (variantOf A v).toList (renderToks A ts) k0 hfind hlen hocc_ne
        (by
          show (renderToks A (RenameTok.occ v :: ts)).length ≤ fuel
          exact hfuel)
      rw [hstep]
      have htbl : (patternsGet (renamePatterns A B)
            (String.mk (variantOf A v).toList) (pascalize B)).toList
          = (variantOf B v).toList := by
        rw [show String.mk (variantOf A v).toList = variantOf A v from rfl]
        rw [patternsGet_variant A B h1 h2 h3 v]
      rw [htbl, ih hsafe (fuel - 1) hrest]

theorem preserveCaseReplace_render (A B : String)
    (hAne : A.toList ≠ []) (hAPne : (pascalize A).toList ≠ [])
    (h1 : A ≠ pyUpper A) (h2 : A ≠ pascalize A)
    (h3 : pyUpper A ≠ pascalize A)
    (hAU : ciStarts A.toList (pyUpper A).toList = true
      ∧ A.toList.length = (pyUpper A).toList.length)
    (hAP : (ciStarts A.toList (pascalize A).toList = true
        ∧ A.toList.length = (pascalize A).toList.length)
      ∨ (ciClash A.toList (pascalize A).toList = true
        ∧ ciClash (pyUpper A).toList (pascalize A).toList = true))
    (toks : List RenameTok)
    (hsafe : decompSafe [A.toList, (pyUpper A).toList, (pascalize A).toList]
      A toks = true) :
    preserveCaseReplace A B (String.mk (renderToks A toks))
      = String.mk (renderToks B toks) := by
  unfold preserveCaseReplace ciSub
  have hkeys : ((renamePatterns A B).map (fun p => p.1.toList))
      = [A.toList, (pyUpper A).toList, (pascalize A).toList] := by
    rw [renamePatterns_eq A B h1 h2 h3]
    rfl
  rw [hkeys]
  rw [show (String.mk (renderToks A toks)).toList = renderToks A toks
    from rfl]
  rw [scanRename A B hAne hAPne h1 h2 h3 hAU hAP toks hsafe
    (renderToks A toks).length (le_refl _)]

/-- Counterexample to claim C4 as stated: for the snake_case identifier
pair (old, new) = ("llama", "t5") and the input text "LLAMA" — a single
UPPER_CASE occurrence of the old identifier, no accidental substrings —
renaming and then renaming back yields "Llama", not the original "LLAMA".
The UPPER and Pascal variants of "t5" coincide (both "T5"), so the reverse
renamer's pattern dict maps "T5" to the Pascal form "Llama". -/
theorem c4_counterexample :
    "LLAMA" = String.mk (renderToks "llama" [RenameTok.occ CaseVariant.upper])
    ∧ preserveCaseReplace "llama" "t5" "LLAMA" = "T5"
    ∧ preserveCaseReplace "t5" "llama"
        (preserveCaseReplace "llama" "t5" "LLAMA") = "Llama"
    ∧ ("Llama" : String) ≠ "LLAMA" := by
  exact ⟨by decide, by decide, by decide, by decide⟩

/-- Claim C4 amended: applying the renamer for (old, new) and then the
renamer for (new, old) reproduces the input exactly, PROVIDED the three
case variants (snake, UPPER, Pascal) of each of the two identifiers are
pairwise distinct and non-empty — the counterexample new_name = "t5",
whose UPPER and Pascal forms coincide, forces this restriction.  The input
"text containing only snake/Pascal/UPPER occurrences of the old identifier
and no accidental substrings" is formalised as a rendered decomposition
into literal segments and variant occurrences such that no key of either
renamer matches inside a literal segment (`decompSafe`); the `hoU`/`hoP`/
`hnU`/`hnP` side conditions record how the case variants of one identifier
may overlap case-insensitively (all four are decidable and hold for
ordinary snake_case identifiers). -/
theorem c4_rename_roundtrip (oldName newName : String)
    (toks : List RenameTok)
    (hone : oldName.toList ≠ []) (hoPne : (pascalize oldName).toList ≠ [])
    (ho1 : oldName ≠ pyUpper oldName) (ho2 : oldName ≠ pascalize oldName)
    (ho3 : pyUpper oldName ≠ pascalize oldName)
    (hoU : ciStarts oldName.toList (pyUpper oldName).toList = true
      ∧ oldName.toList.length = (pyUpper oldName).toList.length)
    (hoP : (ciStarts oldName.toList (pascalize oldName).toList = true
        ∧ oldName.toList.length = (pascalize oldName).toList.length)
      ∨ (ciClash oldName.toList (pascalize oldName).toList = true
        ∧ ciClash (pyUpper oldName).toList (pascalize oldName).toList = true))
    (hnne : newName.toList ≠ []) (hnPne : (pascalize newName).toList ≠ [])
    (hn1 : newName ≠ pyUpper newName) (hn2 : newName ≠ pascalize newName)
    (hn3 : pyUpper newName ≠ pascalize newName)
    (hnU : ciStarts newName.toList (pyUpper newName).toList = true
      ∧ newName.toList.length = (pyUpper newName).toList.length)
    (hnP : (ciStarts newName.toList (pascalize newName).toList = true
        ∧ newName.toList.length = (pascalize newName).toList.length)
      ∨ (ciClash newName.toList (pascalize newName).toList = true
        ∧ ciClash (pyUpper newName).toList (pascalize newName).toList = true))
    (hsafeF : decompSafe [oldName.toList, (pyUpper oldName).toList,
      (pascalize oldName).toList] oldName toks = true)
    (hsafeB : decompSafe [newName.toList, (pyUpper newName).toList,
      (pascalize newName).toList] newName toks = true) :
    preserveCaseReplace newName oldName
        (preserveCaseReplace oldName newName
          (String.mk (renderToks oldName toks)))
      = String.mk (renderToks oldName toks) := by
  rw [preserveCaseReplace_render oldName newName hone hoPne ho1 ho2 ho3
    hoU hoP toks hsafeF]
  exact preserveCaseReplace_render newName oldName hnne hnPne hn1 hn2 hn3
    hnU hnP toks hsafeB

/-- Witness for the amended C4: the pair ("llama", "gemma") on the text
"LLAMA LlamaModel(llama)" (an UPPER occurrence, a literal, a Pascal
occurrence, a literal, a snake occurrence, a literal). -/
theorem c4_rename_witness :
    decompSafe [("llama" : String).toList, (pyUpper "llama").toList,
      (pascalize "llama").toList] "llama"
      [RenameTok.occ CaseVariant.upper, RenameTok.lit " ",
        RenameTok.occ CaseVariant.pascal, RenameTok.lit "Model(",
        RenameTok.occ CaseVariant.snake, RenameTok.lit ")"] = true
    ∧ preserveCaseReplace "gemma" "llama"
        (preserveCaseReplace "llama" "gemma"
          (String.mk (renderToks "llama"
            [RenameTok.occ CaseVariant.upper, RenameTok.lit " ",
              RenameTok.occ CaseVariant.pascal, RenameTok.lit "Model(",
              RenameTok.occ CaseVariant.snake, RenameTok.lit ")"])))
      = String.mk (renderToks "llama"
          [RenameTok.occ CaseVariant.upper, RenameTok.lit " ",
            RenameTok.occ CaseVariant.pascal, RenameTok.lit "Model(",
            RenameTok.occ CaseVariant.snake, RenameTok.lit ")"]) := by
  refine ⟨by decide, ?_⟩
  exact c4_rename_roundtrip "llama" "gemma"
    [RenameTok.occ CaseVariant.upper, RenameTok.lit " ",
      RenameTok.occ CaseVariant.pascal, RenameTok.lit "Model(",
      RenameTok.occ CaseVariant.snake, RenameTok.lit ")"]
    (by decide) (by decide) (by decide) (by decide) (by decide)
    (by decide) (Or.inl (by decide))
    (by decide) (by decide) (by decide) (by decide) (by decide)
    (by decide) (Or.inl (by decide))
    (by decide) (by decide)

end DiffConv
